import Mathlib

/-!
# remote-source-map-loader: source resolution pipeline

A shallow embedding of `src/index.js` (the webpack loader that resolves, fetches and
rewrites the `sources` / `sourcesContent` entries of a source map) together with
theorems about the per-entry resolution pipeline, the cache store, the filter
engine and the default path transform.

Conventions of the embedding.

* Asynchronous functions become functions from the file system at dispatch to an
  `Outcome`: the settled promise (`Except`: resolved or rejected), the file system
  afterwards and the ordered list of observable calls (`Event`s) made on the way.
* JavaScript values that decide a branch are kept apart: `Content` separates
  `undefined`, `null`, strings and `Buffer`s, `Name` separates strings from
  function values.
* Node's `path` module is modelled for POSIX (`path.sep = "/"`).  Library
  functions without a small closed description (`new URL`, `path.relative`,
  `JSON.parse`, `source-map-url`, `loader-utils`, the webpack resolver, the HTTP
  transport) are fields of `Host`.
* User callbacks (predicates and transforms) are total pure functions.
-/

set_option autoImplicit false

namespace RemoteSourceMapLoader

/-! ## POSIX `path` and string helpers -/

namespace path

/-- Model of `String.prototype.split(sep)` on the characters of a string: the pieces between
occurrences of `sep`; the empty string has the single piece `""`. -/
def splitChars (sep : Char) : List Char → List (List Char)
  | [] => [[]]
  | c :: cs =>
    if c = sep then [] :: splitChars sep cs
    else
      match splitChars sep cs with
      | [] => [[c]]
      | seg :: rest => (c :: seg) :: rest

/-- Model of `Array.prototype.join(sep)` on the characters of the pieces. -/
def joinChars (sep : Char) : List (List Char) → List Char
  | [] => []
  | [s] => s
  | s :: t :: rest => s ++ sep :: joinChars sep (t :: rest)

/-- Model of `str.split(path.sep)` with `path.sep = "/"`. -/
def split (s : String) : List String :=
  (splitChars '/' s.toList).map String.mk

/-- Model of `parts.join(path.sep)` with `path.sep = "/"`. -/
def joinSep (parts : List String) : String :=
  String.mk (joinChars '/' (parts.map String.toList))

/-- One step of Node's `normalizeString`: empty and `.` segments are dropped, a `..`
segment removes the previous segment unless there is none or it is itself `..`, in
which case it is kept when `allowAboveRoot` and dropped otherwise. -/
def normalizeStep (allowAboveRoot : Bool) (res : List String) (seg : String) : List String :=
  if seg = "" ∨ seg = "." then res
  else if seg = ".." then
    match res.getLast? with
    | some last =>
      if last ≠ ".." then res.dropLast
      else if allowAboveRoot then res ++ [".."] else res
    | none => if allowAboveRoot then res ++ [".."] else res
  else res ++ [seg]

/-- Node's `normalizeString(path, allowAboveRoot, "/", isPosixPathSeparator)`, on the
segments of the path; the result is the list of segments of the normalised body. -/
def normalizeString (segs : List String) (allowAboveRoot : Bool) : List String :=
  segs.foldl (normalizeStep allowAboveRoot) []

/-- Model of `path.posix.normalize`. -/
def normalize (p : String) : String :=
  if p.toList = [] then "."
  else
    let isAbsolute := p.toList.head? = some '/'
    let trailingSeparator := p.toList.getLast? = some '/'
    let body := joinSep (normalizeString (split p) (!decide isAbsolute))
    if body.toList = [] then
      if isAbsolute then "/" else if trailingSeparator then "./" else "."
    else
      (if isAbsolute then "/" else "") ++ body ++ (if trailingSeparator then "/" else "")

/-- Model of `path.posix.join(...args)`: the non-empty arguments joined by `/` and normalised;
`"."` when every argument is empty. -/
def join (args : List String) : String :=
  match args.filter (fun a => a ≠ "") with
  | [] => "."
  | parts => normalize (joinSep parts)

/-- The `dir` and `base` fields of `path.posix.parse(p)` (the other fields are not read
by the loader). -/
structure Parsed where
  dir : String
  base : String
  deriving DecidableEq

/-- Model of `path.posix.parse`: `base` is the last segment once trailing slashes are ignored,
`dir` is everything before the slash that precedes it (the root `/` alone when the
base is the only segment of an absolute path). -/
def parse (p : String) : Parsed :=
  if p.toList = [] then ⟨"", ""⟩
  else
    let isAbsolute := p.toList.head? = some '/'
    let root : String := if isAbsolute then "/" else ""
    let scanned := ((p.toList.drop (if isAbsolute then 1 else 0)).reverse).dropWhile (· == '/')
    match scanned with
    | [] => ⟨root, ""⟩
    | _ =>
      let base := String.mk (scanned.takeWhile (· != '/')).reverse
      match scanned.dropWhile (· != '/') with
      | [] => ⟨root, base⟩
      | _ :: before => ⟨root ++ String.mk before.reverse, base⟩

/-- Model of `path.posix.dirname`. -/
def dirname (p : String) : String :=
  if p.toList = [] then "."
  else
    let hasRoot := p.toList.head? = some '/'
    let scanned := ((p.toList.drop 1).reverse).dropWhile (· == '/')
    match scanned.dropWhile (· != '/') with
    | [] => if hasRoot then "/" else "."
    | _ :: before =>
      if hasRoot ∧ before = [] then "//"
      else String.mk (p.toList.take 1 ++ before.reverse)

end path

/-! ## Values -/

/-- The fields of a WHATWG `URL` object that the loader reads. -/
structure URL where
  href : String
  protocol : String
  hostname : String
  pathname : String
  deriving DecidableEq

/-- The argument of the post-fetch transform: `sourceURL || relativeSource`, a `URL`
object or a path string. -/
inductive SourcePath where
  | str (s : String)
  | url (u : URL)
  deriving DecidableEq

/-- Model of `defaultPostFetchTransform(sourceDir)(sourcePath)` for a string `sourceDir`
(lines 233-250). -/
def defaultPostFetchTransform (sourceDir : String) (sourcePath : SourcePath) : String :=
  match sourcePath with
  | .str s =>
    let parts := path.parse (path.normalize s)
    let noRoot := path.join [parts.dir, parts.base]
    let relativeToAncestor :=
      path.joinSep ((path.split noRoot).filter (fun p => p ≠ ".."))
    if sourceDir ≠ "" then path.join [sourceDir, relativeToAncestor] else relativeToAncestor
  | .url u =>
    let remotePath := path.join [u.hostname, u.pathname]
    if sourceDir ≠ "" then path.join [sourceDir, remotePath] else remotePath

/-- The JavaScript values that travel through the pipeline as source content:
`undefined` (a missing field or an index past the end of `sourcesContent`), `null`,
a string, or a `Buffer` (what `fs.promises.readFile` yields without an encoding;
`bytes` is the text whose UTF-8 encoding the buffer holds). -/
inductive Content where
  | undefined
  | null
  | str (s : String)
  | buffer (bytes : String)
  deriving DecidableEq

/-- JavaScript truthiness of a content value: `!sourceContent` is `!c.truthy`.  The
empty string is falsy, every `Buffer` (an object) is truthy. -/
def Content.truthy : Content → Bool
  | .str s => decide (s ≠ "")
  | .buffer _ => true
  | _ => false

/-- The expression `sourceContent || null`. -/
def Content.orNull (c : Content) : Content :=
  if c.truthy then c else .null

/-- The value the post-fetch transform held in the resolved options returns: a string,
or the function value `defaultPostFetchTransform(sourceDir)` (a closure over
`sourceDir`, which the loader never calls). -/
inductive Name where
  | str (s : String)
  | closure (sourceDir : SourcePath)
  deriving DecidableEq

/-- The pipeline output per entry, `{ source, sourceContent }`; a record without
`sourceContent` has `sourceContent = undefined`. -/
structure ResolvedSource where
  source : Name
  sourceContent : Content
  deriving DecidableEq

/-- The transport module handed to `downloadHttpSource`. -/
inductive HttpModule where
  | http
  | https
  deriving DecidableEq

/-- Observable calls made by the loader, in program order. -/
inductive Event where
  | emitWarning (message : String)
  | emitFile (name : Name) (content : Content)
  | addDependency (file : String)
  | preFetchTransform (source : String)
  | resolve (context request : String)
  | get (module : HttpModule) (url : URL)
  | access (file : String)
  | readFile (file : String) (utf8 : Bool)
  | mkdir (dir : String)
  | writeFile (file : String) (data : Content)
  deriving DecidableEq

/-- The event is a network GET. -/
def Event.isGet : Event → Bool
  | .get _ _ => true
  | _ => false

/-- The event is a `writeFile` call. -/
def Event.isWriteFile : Event → Bool
  | .writeFile _ _ => true
  | _ => false

/-- The event is a `readFile` call. -/
def Event.isReadFile : Event → Bool
  | .readFile _ _ => true
  | _ => false

/-- The event is an `emitFile` call. -/
def Event.isEmitFile : Event → Bool
  | .emitFile _ _ => true
  | _ => false

/-- The event belongs to the fetch step: a GET, a cache existence check, a file read
or write, a directory creation or a resolver call. -/
def Event.isFetchStep : Event → Bool
  | .get _ _ => true
  | .access _ => true
  | .readFile _ _ => true
  | .mkdir _ => true
  | .writeFile _ _ => true
  | .resolve _ _ => true
  | _ => false

/-- A settled promise. -/
inductive Settled (α : Type) where
  | resolved (value : α)
  | rejected (error : String)
  deriving DecidableEq

/-- A node of the file system: a regular file with its text, or a directory. -/
inductive Node where
  | file (text : String)
  | dir
  deriving DecidableEq

/-- The file system: the nodes by path, the most recent entry of a path first.  A path
is entered without trailing slashes; the root `/` and the working directory `.` are
directories that always exist; relative paths stay relative (the working directory has
no absolute name).  The ancestors of an entry are taken to be directories. -/
structure FS where
  entries : List (String × Node)
  deriving DecidableEq

/-- The path without its trailing slashes (the root stays `/`). -/
def FS.key (p : String) : String :=
  match (p.toList.reverse.dropWhile (· == '/')).reverse with
  | [] => if p.toList = [] then "" else "/"
  | c :: cs => String.mk (c :: cs)

/-- Whether the path ends in a slash, and so can only name a directory. -/
def FS.wantsDir (p : String) : Bool :=
  p.toList.getLast? == some '/'

/-- The node a path names, if any: the empty path names nothing, and a path ending in a
slash does not name a regular file. -/
def FS.lookup (fs : FS) (p : String) : Option Node :=
  if p = "" then none
  else if FS.key p = "/" ∨ FS.key p = "." then some .dir
  else
    match fs.entries.lookup (FS.key p) with
    | some (.file text) => if FS.wantsDir p then none else some (.file text)
    | some .dir => some .dir
    | none => none

/-- Whether `fs.promises.access(file)` succeeds: the path names a file or a directory. -/
def FS.access (fs : FS) (file : String) : Bool :=
  (fs.lookup file).isSome

/-- The text of `file`, when it names a regular file. -/
def FS.read (fs : FS) (file : String) : Option String :=
  match fs.lookup file with
  | some (.file text) => some text
  | _ => none

/-- The directory and its ancestors, the nearest to the root first: `a`, `a/b`, `a/b/c`
for `a/b/c`. -/
def FS.components (dir : String) : List String :=
  ((List.range (path.split (FS.key dir)).length).map
    (fun i => path.joinSep ((path.split (FS.key dir)).take (i + 1)))).filter (fun q => q ≠ "")

/-- The file system after `mkdir -p dir`: rejected when the path is empty or one of its
components is a regular file, else every component is a directory. -/
def FS.mkdirp (fs : FS) (dir : String) : Settled FS :=
  if dir = "" then .rejected "ENOENT: no such file or directory, mkdir"
  else if (FS.components dir).any
      (fun q => match fs.lookup q with
        | some (.file _) => true
        | _ => false) then
    .rejected ("EEXIST: file already exists, mkdir " ++ dir)
  else .resolved ⟨(FS.components dir).map (fun q => (q, Node.dir)) ++ fs.entries⟩

/-- The file system after `file` has been written with `text`: rejected when the path is
empty, ends in a slash or names a directory (`EISDIR`), or when its parent is not a
directory (`ENOTDIR`, `ENOENT`). -/
def FS.write (fs : FS) (file : String) (text : String) : Settled FS :=
  if file = "" then .rejected "ENOENT: no such file or directory, open"
  else if FS.wantsDir file ∨ fs.lookup file = some .dir then
    .rejected ("EISDIR: illegal operation on a directory, open " ++ file)
  else
    match fs.lookup (path.dirname (FS.key file)) with
    | some .dir => .resolved ⟨(FS.key file, .file text) :: fs.entries⟩
    | some (.file _) => .rejected ("ENOTDIR: not a directory, open " ++ file)
    | none => .rejected ("ENOENT: no such file or directory, open " ++ file)

/-- What an asynchronous function has done once its promise settles. -/
structure Outcome (α : Type) where
  result : Settled α
  fs : FS
  trace : List Event
  deriving DecidableEq

/-- An asynchronous function, run from the file system at dispatch. -/
def Task (α : Type) : Type := FS → Outcome α

/-- A task that resolves at once. -/
def Task.pure {α : Type} (a : α) : Task α :=
  fun fs => ⟨.resolved a, fs, []⟩

/-- Sequencing with `await`: a rejection skips the continuation. -/
def Task.bind {α β : Type} (t : Task α) (f : α → Task β) : Task β :=
  fun fs =>
    let o := t fs
    match o.result with
    | .rejected e => ⟨.rejected e, o.fs, o.trace⟩
    | .resolved a =>
      let o2 := f a o.fs
      ⟨o2.result, o2.fs, o.trace ++ o2.trace⟩

instance : Monad Task where
  pure := Task.pure
  bind := Task.bind

/-- Record one observable call. -/
def emit (e : Event) : Task Unit :=
  fun fs => ⟨.resolved (), fs, [e]⟩

/-- The parsed source map (`JSON.parse(sourceMapContent)`), the fields the loader
reads. -/
structure SourceMap where
  sources : List String
  sourcesContent : Option (List (Option String))
  sourceRoot : Option String

/-- The source map after `sources` and `sourcesContent` have been replaced. -/
structure RewrittenMap where
  sources : List Name
  sourcesContent : List Content
  sourceRoot : Option String
  deriving DecidableEq

/-- The value `loadSources` resolves with: `{ content }` or `{ content, map }`. -/
structure LoadResult where
  content : String
  map : Option RewrittenMap
  deriving DecidableEq

/-- The loader context and the library functions the loader calls. -/
structure Host where
  /-- The property `this.rootContext`. -/
  rootContext : String
  /-- The property `this.context`. -/
  context : String
  /-- The call `tryOrNull(() => new URL(source))`: `none` for `null`. -/
  parseURL : String → Option URL
  /-- The call `path.relative(from, to)`. -/
  relative : String → String → String
  /-- The call `this.resolve(context, request, callback)` made through `asyncResolve`. -/
  resolve : String → String → Settled String
  /-- The response of `module.get(sourceURL, …)` read to the end by `readableToString`;
  rejected when the stream reports an error. -/
  httpGet : HttpModule → URL → Settled String
  /-- The call `sourceMappingURL.getFrom(content)`. -/
  getFrom : String → Option String
  /-- The call `sourceMappingURL.removeFrom(content)`. -/
  removeFrom : String → String
  /-- The call `loaderUtils.isUrlRequest(url)`. -/
  isUrlRequest : String → Bool
  /-- The call `loaderUtils.urlToRequest(url)`. -/
  urlToRequest : String → String
  /-- The call `JSON.parse(sourceMapContent)`; `none` when it throws (or the value has no
  `sources` array, whose first use then throws). -/
  parseJSON : String → Option SourceMap

/-! ## Filter engine (lines 252-273) -/

/-- A regular expression without the `g` and `y` flags: its `test` is a function of the
input. -/
structure RegExp where
  test : String → Bool

/-- A value given for `exclude`, `includeContent` or `emitContent`. -/
inductive FilterOption where
  | func (f : String → Bool)
  | bool (b : Bool)
  | str (s : String)
  | regExp (r : RegExp)
  | undefined
  | null
  | number (n : Int)
  | object
  | array (items : List FilterOption)

/-- Model of `filterFunction(option, defaultValue)`. -/
def filterFunction (option : FilterOption) (defaultValue : String → Bool) : String → Bool :=
  match option with
  | .func f => f
  | .bool b => fun _ => b
  | .str s => fun input => decide (input = s)
  | .regExp r => fun input => r.test input
  | _ => defaultValue

/-- Model of `filterFunctions(option, defaultValue)`. -/
def filterFunctions (option : FilterOption) (defaultValue : String → Bool) :
    List (String → Bool) :=
  match option with
  | .array items => items.map (fun a => filterFunction a defaultValue)
  | _ => [filterFunction option defaultValue]

/-! ## Options (lines 38-58) -/

/-- The value of `options.cacheDirectory`. -/
inductive CacheDirectory where
  | undefined
  | disabled
  | dir (d : String)
  deriving DecidableEq

/-- The user configuration, as `loaderUtils.getOptions(this) || {}` returns it once the
schema has accepted it. -/
structure RawOptions where
  sourceDir : Option String
  cacheDirectory : CacheDirectory
  exclude : FilterOption
  includeContent : FilterOption
  emitContent : FilterOption
  preFetchTransform : Option (String → Option String)
  postFetchTransform : Option (SourcePath → (SourcePath → String) → String)

/-- The resolved options of one pipeline run.  `cacheDir = none` stands for `false`;
`preFetchTransform` yields `none` for a non-string falsy value. -/
structure Options where
  exclude : List (String → Bool)
  cacheDir : Option String
  preFetchTransform : String → Option String
  sourceDir : String
  postFetchTransform : SourcePath → Name
  includeContent : String → Bool
  emitContent : String → Bool

/-- The loader name. -/
def LOADER_NAME : String := "remote-source-map-loader"

/-- The function `resolveOptions` (lines 38-58).  When the user gives no
`postFetchTransform`, the field holds `defaultPostFetchTransform` itself (line 45),
not `defaultPFT`: applied to a source path it returns the closure
`defaultPostFetchTransform(sourcePath)`. -/
def resolveOptions (options : RawOptions) : Options :=
  let sourceDir :=
    match options.sourceDir with
    | some d => if d ≠ "" then d else "src"
    | none => "src"
  let defaultPFT := defaultPostFetchTransform sourceDir
  let postFetchTransform : SourcePath → Name :=
    match options.postFetchTransform with
    | some f => fun sourcePath => .str (f sourcePath defaultPFT)
    | none => fun sourcePath => .closure sourcePath
  { exclude := filterFunctions options.exclude (fun _ => false)
    cacheDir :=
      match options.cacheDirectory with
      | .undefined => some ("." ++ LOADER_NAME)
      | .disabled => none
      | .dir d => some d
    preFetchTransform :=
      match options.preFetchTransform with
      | some f => f
      | none => fun i => some i
    sourceDir := sourceDir
    postFetchTransform := postFetchTransform
    includeContent := filterFunction options.includeContent (fun _ => true)
    emitContent := filterFunction options.emitContent (fun _ => true) }

/-! ## Cache store and fetchers (lines 173-231) -/

/-- JavaScript truthiness of a path that may be `null`. -/
def truthyPath : Option String → Bool
  | some p => decide (p ≠ "")
  | none => false

/-- Model of `getCachePath(sourceURL, options)` (lines 173-179). -/
def getCachePath (sourceURL : URL) (options : Options) : Option String :=
  if truthyPath options.cacheDir then
    some (path.join [options.cacheDir.getD "", sourceURL.hostname ++ sourceURL.pathname])
  else none

/-- Model of `canReadFromCache(cachePath)` (lines 181-191): an existence check, made only for a
truthy path; a failed check is swallowed. -/
def canReadFromCache (cachePath : Option String) : Task Bool :=
  if truthyPath cachePath then
    fun fs =>
      let file := cachePath.getD ""
      ⟨.resolved (fs.access file), fs, [.access file]⟩
  else pure false

/-- Model of `fs.promises.readFile(file)` without an encoding: a `Buffer`. -/
def readFileBuffer (file : String) : Task Content :=
  fun fs =>
    match fs.lookup file with
    | some (.file text) => ⟨.resolved (.buffer text), fs, [.readFile file false]⟩
    | some .dir =>
      ⟨.rejected "EISDIR: illegal operation on a directory, read", fs, [.readFile file false]⟩
    | none =>
      ⟨.rejected ("ENOENT: no such file or directory, open " ++ file), fs, [.readFile file false]⟩

/-- Model of `fs.promises.readFile(file, "utf8")`: a string. -/
def readFileUtf8 (file : String) : Task String :=
  fun fs =>
    match fs.lookup file with
    | some (.file text) => ⟨.resolved text, fs, [.readFile file true]⟩
    | some .dir =>
      ⟨.rejected "EISDIR: illegal operation on a directory, read", fs, [.readFile file true]⟩
    | none =>
      ⟨.rejected ("ENOENT: no such file or directory, open " ++ file), fs, [.readFile file true]⟩

/-- Model of `fs.promises.mkdir(dir, { recursive: true })`. -/
def mkdir (dir : String) : Task Unit :=
  fun fs =>
    match fs.mkdirp dir with
    | .resolved created => ⟨.resolved (), created, [.mkdir dir]⟩
    | .rejected e => ⟨.rejected e, fs, [.mkdir dir]⟩

/-- The write of a text by `fs.promises.writeFile`. -/
def writeText (file : String) (data : Content) (text : String) : Task Unit :=
  fun fs =>
    match fs.write file text with
    | .resolved written => ⟨.resolved (), written, [.writeFile file data]⟩
    | .rejected e => ⟨.rejected e, fs, [.writeFile file data]⟩

/-- Model of `fs.promises.writeFile(file, data)`: any data other than a string or a buffer
is refused with a `TypeError` before the file is opened (Node 14 and later); the write
itself fails as `FS.write` does. -/
def writeFile (file : String) (data : Content) : Task Unit :=
  match data with
  | .str text => writeText file data text
  | .buffer bytes => writeText file data bytes
  | _ =>
    fun fs =>
      ⟨.rejected "TypeError [ERR_INVALID_ARG_TYPE]: The data argument must be of type string or an instance of Buffer, TypedArray, or DataView.",
        fs, [.writeFile file data]⟩

/-- Model of `downloadHttpSource(module, sourceURL)` (lines 211-219). -/
def downloadHttpSource (host : Host) (module : HttpModule) (sourceURL : URL) : Task Content :=
  fun fs =>
    match host.httpGet module sourceURL with
    | .resolved body => ⟨.resolved (.str body), fs, [.get module sourceURL]⟩
    | .rejected e => ⟨.rejected e, fs, [.get module sourceURL]⟩

/-- Model of `fetchRemote(sourceURL)` (lines 194-208). -/
def fetchRemote (host : Host) (sourceURL : URL) : Task Content :=
  if sourceURL.protocol = "http:" then do
    emit (.emitWarning ("Insecure HTTP protocol used for source '" ++ sourceURL.href ++ "'."))
    downloadHttpSource host .http sourceURL
  else if sourceURL.protocol = "https:" then
    downloadHttpSource host .https sourceURL
  else do
    emit (.emitWarning ("Unsupported protocol '" ++ sourceURL.protocol ++ "'."))
    pure .null

/-- Model of `fetchLocal(source, sourceRoot)` (lines 222-231): a failed resolution or read is
caught, reported as a warning, and yields `null`. -/
def fetchLocal (host : Host) (source sourceRoot : String) : Task Content :=
  fun fs =>
    match host.resolve sourceRoot source with
    | .rejected e =>
      ⟨.resolved .null, fs, [.resolve sourceRoot source, .emitWarning e]⟩
    | .resolved sourcePath =>
      let read := readFileUtf8 sourcePath fs
      match read.result with
      | .resolved text =>
        ⟨.resolved (.str text), read.fs, .resolve sourceRoot source :: read.trace⟩
      | .rejected e =>
        ⟨.resolved .null, read.fs, .resolve sourceRoot source :: read.trace ++ [.emitWarning e]⟩

/-! ## The per-entry pipeline (lines 103-171) -/

/-- The content acquisition of `fetchSource` (lines 134-150): the content already in the
map when it is truthy, else the cache or the network for a URL, else the local
file. -/
def acquireContent (host : Host) (options : Options) (source : String)
    (sourceContent : Content) (sourceRoot : String) (sourceURL : Option URL) : Task Content :=
  if !sourceContent.truthy then
    match sourceURL with
    | some url => do
      let cachePath := getCachePath url options
      let readFromCache ← canReadFromCache cachePath
      if readFromCache then
        readFileBuffer (cachePath.getD "")
      else do
        let fetched ← fetchRemote host url
        if truthyPath cachePath then do
          mkdir (path.dirname (cachePath.getD ""))
          writeFile (cachePath.getD "") fetched
          pure fetched
        else pure fetched
    | none => fetchLocal host source sourceRoot
  else pure sourceContent

/-- The name given to an entry (lines 151-155):
`options.postFetchTransform(sourceURL || relativeSource)`. -/
def entryName (host : Host) (options : Options) (source sourceRoot : String)
    (sourceURL : Option URL) : Name :=
  let relativeSource := host.relative host.rootContext (path.join [sourceRoot, source])
  options.postFetchTransform
    (match sourceURL with
     | some url => .url url
     | none => .str relativeSource)

/-- The emission step of `fetchSource` (lines 156-165). -/
def emitStep (emitContent : Bool) (name : Name) (sourceContent : Content)
    (source sourceRoot : String) : Task Unit :=
  if emitContent then
    if !sourceContent.truthy then
      emit (.emitWarning ("Source content was empty for " ++ source ++ " in " ++ sourceRoot ++ "."))
    else emit (.emitFile name sourceContent)
  else pure ()

/-- Model of `fetchSource(source, sourceContent, sourceRoot, options)` (lines 125-171). -/
def fetchSource (host : Host) (options : Options) (source : String) (sourceContent : Content)
    (sourceRoot : String) : Task ResolvedSource :=
  let includeContent := options.includeContent source
  let emitContent := options.emitContent source
  if !includeContent && !emitContent then
    pure { source := .str source, sourceContent := sourceContent }
  else do
    let sourceURL := host.parseURL source
    let sourceContent ← acquireContent host options source sourceContent sourceRoot sourceURL
    let name := entryName host options source sourceRoot sourceURL
    emitStep emitContent name sourceContent source sourceRoot
    if includeContent then
      pure { source := name, sourceContent := sourceContent }
    else
      pure { source := name, sourceContent := .null }

/-- The expression `sourcesContent ? sourcesContent[index] : null` (line 112). -/
def sourceContentAt (sourcesContent : Option (List (Option String))) (index : Nat) : Content :=
  match sourcesContent with
  | none => .null
  | some contents =>
    match contents.get? index with
    | none => .undefined
    | some none => .null
    | some (some text) => .str text

/-- The test `options.exclude.some((f) => f(source))` (line 109). -/
def isExcluded (options : Options) (source : String) : Bool :=
  options.exclude.any (fun f => f source)

/-- The iteratee of `fetchSources` (lines 107-120), for the entry `{ source, index }`. -/
def resolveEntry (host : Host) (options : Options) (sourcesContent : Option (List (Option String)))
    (sourceRoot : String) (entry : String × Nat) : Task ResolvedSource :=
  if isExcluded options entry.1 then
    pure { source := .str entry.1, sourceContent := .undefined }
  else do
    emit (.preFetchTransform entry.1)
    match options.preFetchTransform entry.1 with
    | none => pure { source := .str entry.1, sourceContent := .undefined }
    | some transformedSource =>
      if transformedSource = "" then
        pure { source := .str entry.1, sourceContent := .undefined }
      else
        fetchSource host options transformedSource
          (sourceContentAt sourcesContent entry.2) sourceRoot

/-- The value `async.map` settles with: the results in index order when every entry
resolved, else a rejection (here the one of the lowest rejected index; the library
reports whichever comes first in time). -/
def collect {α : Type} : List (Settled α) → Settled (List α)
  | [] => .resolved []
  | .rejected e :: _ => .rejected e
  | .resolved a :: rest =>
    match collect rest with
    | .resolved as => .resolved (a :: as)
    | .rejected e => .rejected e

/-- What a concurrent `async.map` has done: the settled promise and, per entry in index
order, the outcome of that entry.  Every entry is dispatched from the same file
system; the interleaving of their calls is not fixed. -/
structure MapOutcome where
  result : Settled (List ResolvedSource)
  entries : List (Outcome ResolvedSource)
  deriving DecidableEq

/-- Model of `fetchSources(sources, sourcesContent, sourceRoot, options)` (lines 103-121). -/
def fetchSources (host : Host) (options : Options) (sources : List String)
    (sourcesContent : Option (List (Option String))) (sourceRoot : String) (fs : FS) :
    MapOutcome :=
  let sourcesWithIndex := sources.enum.map (fun e => (e.2, e.1))
  let entries := sourcesWithIndex.map
    (fun sourceWithIndex => resolveEntry host options sourcesContent sourceRoot sourceWithIndex fs)
  { result := collect (entries.map (fun o => o.result)), entries := entries }

/-- What `loadSources` has done: the settled promise, the calls made before the
per-entry dispatch, and the per-entry outcomes (empty when nothing was dispatched). -/
structure LoadOutcome where
  result : Settled LoadResult
  trace : List Event
  entries : List (Outcome ResolvedSource)
  deriving DecidableEq

/-- Model of `loadSources(content, options)` (lines 60-100). -/
def loadSources (host : Host) (options : Options) (content : String) (fs : FS) : LoadOutcome :=
  match host.getFrom content with
  | none => ⟨.resolved { content := content, map := none }, [], []⟩
  | some sourceMapURL =>
    if sourceMapURL = "" then ⟨.resolved { content := content, map := none }, [], []⟩
    else
      let warned : List Event :=
        if !host.isUrlRequest sourceMapURL then
          [.emitWarning ("Source map URL '" ++ sourceMapURL ++ "' is not requestable.")]
        else []
      let sourceMapRequest := host.urlToRequest sourceMapURL
      match host.resolve host.context sourceMapRequest with
      | .rejected e => ⟨.rejected e, warned ++ [.resolve host.context sourceMapRequest], []⟩
      | .resolved sourceMapPath =>
        let read := readFileUtf8 sourceMapPath fs
        let before :=
          warned ++ [.resolve host.context sourceMapRequest, .addDependency sourceMapPath]
            ++ read.trace
        match read.result with
        | .rejected e => ⟨.rejected e, before, []⟩
        | .resolved sourceMapContent =>
          match host.parseJSON sourceMapContent with
          | none => ⟨.rejected "SyntaxError: Unexpected token in JSON", before, []⟩
          | some sourceMap =>
            let sourceRoot :=
              path.join [path.dirname sourceMapPath, sourceMap.sourceRoot.getD ""]
            let contentWithoutSourceMappingURL := host.removeFrom content
            let newSources :=
              fetchSources host options sourceMap.sources sourceMap.sourcesContent sourceRoot fs
            match newSources.result with
            | .rejected e => ⟨.rejected e, before, newSources.entries⟩
            | .resolved results =>
              ⟨.resolved
                { content := contentWithoutSourceMappingURL
                  map := some
                    { sources := results.foldl (fun acc next => acc ++ [next.source]) []
                      sourcesContent :=
                        results.foldl (fun acc next => acc ++ [next.sourceContent.orNull]) []
                      sourceRoot := sourceMap.sourceRoot } },
                before, newSources.entries⟩

/-! ## Example environments -/

/-- The URLs the example host parses. -/
def exampleParseURL (source : String) : Option URL :=
  if source = "https://cdn.example/lib/a.js" then
    some ⟨"https://cdn.example/lib/a.js", "https:", "cdn.example", "/lib/a.js"⟩
  else if source = "https://cdn.example/" then
    some ⟨"https://cdn.example/", "https:", "cdn.example", "/"⟩
  else if source = "ftp://host/file.js" then
    some ⟨"ftp://host/file.js", "ftp:", "host", "/file.js"⟩
  else none

/-- A build in `/project` whose generated file `x;` refers to `map.json`; the CDN
answers every GET with the same body. -/
def exampleHost : Host where
  rootContext := "/project"
  context := "/project/dist"
  parseURL := exampleParseURL
  relative := fun root target => String.mk (target.toList.drop (root.length + 1))
  resolve := fun context request => .resolved (path.join [context, request])
  httpGet := fun _ _ => .resolved "export default 1"
  getFrom := fun content =>
    if content = "x;\n//# sourceMappingURL=map.json" then some "map.json" else none
  removeFrom := fun content =>
    if content = "x;\n//# sourceMappingURL=map.json" then "x;\n" else content
  isUrlRequest := fun _ => true
  urlToRequest := fun url => "./" ++ url
  parseJSON := fun text =>
    if text = "local" then
      some { sources := ["a.js"], sourcesContent := some [none], sourceRoot := none }
    else if text = "remote" then
      some { sources := ["a.js", "https://cdn.example/lib/a.js"],
             sourcesContent := some [some "console.log(0)", none], sourceRoot := none }
    else none

/-- The example host with a network that resets every connection. -/
def offlineHost : Host :=
  { exampleHost with httpGet := fun _ _ => .rejected "ECONNRESET" }

/-- The empty configuration `{}`. -/
def defaultRawOptions : RawOptions where
  sourceDir := none
  cacheDirectory := .undefined
  exclude := .undefined
  includeContent := .undefined
  emitContent := .undefined
  preFetchTransform := none
  postFetchTransform := none

/-- A configuration whose `postFetchTransform` calls the default it is handed. -/
def namedRawOptions : RawOptions :=
  { defaultRawOptions with postFetchTransform := some (fun sourcePath fallback => fallback sourcePath) }

/-- The project with `map.json` (the local map) and `a.js` on disk. -/
def exampleFS : FS :=
  ⟨[("/project", .dir), ("/project/dist", .dir), ("/project/dist/map.json", .file "local"),
    ("/project/dist/a.js", .file "console.log(1)")]⟩

/-- The project with the two-entry map on disk. -/
def remoteFS : FS :=
  ⟨[("/project", .dir), ("/project/dist", .dir), ("/project/dist/map.json", .file "remote")]⟩

/-- The named configuration with `includeContent: false`. -/
def omitRawOptions : RawOptions :=
  { namedRawOptions with includeContent := .bool false }

/-- The named configuration with `includeContent: false` and `emitContent: false`. -/
def inertRawOptions : RawOptions :=
  { namedRawOptions with includeContent := .bool false, emitContent := .bool false }

/-- The project with an empty `a.js` on disk. -/
def emptyFileFS : FS :=
  ⟨[("/project", .dir), ("/project/dist", .dir), ("/project/dist/a.js", .file "")]⟩

/-- The named configuration with `cacheDirectory: false`. -/
def uncachedRawOptions : RawOptions :=
  { namedRawOptions with cacheDirectory := .disabled }

/-- The URL object of `ftp://host/file.js`. -/
def ftpURL : URL :=
  ⟨"ftp://host/file.js", "ftp:", "host", "/file.js"⟩

/-- The URL object of `https://cdn.example/lib/a.js`. -/
def cdnURL : URL :=
  ⟨"https://cdn.example/lib/a.js", "https:", "cdn.example", "/lib/a.js"⟩

/-- The URL object of `https://cdn.example/`. -/
def cdnRootURL : URL :=
  ⟨"https://cdn.example/", "https:", "cdn.example", "/"⟩

/-- The two-entry project once the cache directory of the CDN source exists. -/
def cacheDirFS : FS :=
  ⟨[(".remote-source-map-loader", .dir), (".remote-source-map-loader/cdn.example", .dir),
    (".remote-source-map-loader/cdn.example/lib", .dir), ("/project", .dir),
    ("/project/dist", .dir), ("/project/dist/map.json", .file "remote")]⟩

/-- The two-entry project once the CDN source is in the cache. -/
def cachedFS : FS :=
  ⟨(".remote-source-map-loader/cdn.example/lib/a.js", .file "export default 1")
    :: cacheDirFS.entries⟩

/-- Every call a task makes, from any file system, satisfies `P`. -/
def Emits {α : Type} (P : Event → Prop) (t : Task α) : Prop :=
  ∀ fs, ∀ e ∈ (t fs).trace, P e

/-! ## Lemmas on splitting and joining -/

namespace path

theorem splitChars_ne_nil (sep : Char) (l : List Char) : splitChars sep l ≠ [] := by
  cases l with
  | nil => simp [splitChars]
  | cons c cs =>
    unfold splitChars
    by_cases h : c = sep
    · simp [h]
    · simp only [h, if_false]
      cases splitChars sep cs <;> simp

theorem splitChars_of_not_mem (sep : Char) (l : List Char) (h : sep ∉ l) :
    splitChars sep l = [l] := by
  induction l with
  | nil => rfl
  | cons c cs ih =>
    have hc : c ≠ sep := fun e => h (by simp [e])
    have hcs : sep ∉ cs := fun e => h (by simp [e])
    simp [splitChars, hc, ih hcs]

theorem splitChars_append_cons (sep : Char) (s rest : List Char) (h : sep ∉ s) :
    splitChars sep (s ++ sep :: rest) = s :: splitChars sep rest := by
  induction s with
  | nil => simp [splitChars]
  | cons c cs ih =>
    have hc : c ≠ sep := fun e => h (by simp [e])
    have hcs : sep ∉ cs := fun e => h (by simp [e])
    simp [splitChars, hc, ih hcs]

theorem splitChars_joinChars (sep : Char) (segs : List (List Char)) (hne : segs ≠ [])
    (h : ∀ s ∈ segs, sep ∉ s) : splitChars sep (joinChars sep segs) = segs := by
  induction segs with
  | nil => exact absurd rfl hne
  | cons s rest ih =>
    cases rest with
    | nil => simpa [joinChars] using splitChars_of_not_mem sep s (h s (by simp))
    | cons t rest =>
      have hs : sep ∉ s := h s (by simp)
      have := ih (by simp) (fun x hx => h x (by simp [List.mem_cons] at hx ⊢; tauto))
      simp [joinChars, splitChars_append_cons sep s _ hs, this]

theorem not_mem_of_mem_splitChars (sep : Char) (l : List Char) :
    ∀ s ∈ splitChars sep l, sep ∉ s := by
  induction l with
  | nil => simp [splitChars]
  | cons c cs ih =>
    intro s hs
    unfold splitChars at hs
    by_cases hc : c = sep
    · simp only [hc, if_true, List.mem_cons] at hs
      rcases hs with rfl | hs
      · simp
      · exact ih s hs
    · simp only [hc, if_false] at hs
      cases hsp : splitChars sep cs with
      | nil => exact absurd hsp (splitChars_ne_nil sep cs)
      | cons seg rest =>
        rw [hsp] at hs ih
        simp only [List.mem_cons] at hs
        rcases hs with rfl | hs
        · intro hmem
          simp only [List.mem_cons] at hmem
          rcases hmem with e | hmem
          · exact hc e.symm
          · exact ih seg (by simp) hmem
        · exact ih s (by simp [hs])

theorem splitChars_append_sep (sep : Char) (l : List Char) :
    splitChars sep (l ++ [sep]) = splitChars sep l ++ [[]] := by
  induction l with
  | nil => simp [splitChars]
  | cons c cs ih =>
    by_cases hc : c = sep
    · simp [splitChars, hc, ih]
    · cases hsp : splitChars sep cs with
      | nil => exact absurd hsp (splitChars_ne_nil sep cs)
      | cons seg rest =>
        rw [hsp] at ih
        simp [splitChars, hc, ih, hsp]

theorem split_joinSep (parts : List String) (hne : parts ≠ [])
    (h : ∀ p ∈ parts, '/' ∉ p.toList) : split (joinSep parts) = parts := by
  unfold split joinSep
  have h1 : splitChars '/' (joinChars '/' (parts.map String.toList)) = parts.map String.toList := by
    apply splitChars_joinChars
    · simpa using hne
    · intro s hs
      simp only [List.mem_map] at hs
      obtain ⟨p, hp, rfl⟩ := hs
      exact h p hp
  show List.map String.mk (splitChars '/' (joinChars '/' (parts.map String.toList))) = parts
  rw [h1, List.map_map]
  conv_rhs => rw [← List.map_id parts]
  apply List.map_congr_left
  intro a _
  rfl

theorem not_mem_of_mem_split (x : String) : ∀ s ∈ split x, '/' ∉ s.toList := by
  intro s hs
  unfold split at hs
  simp only [List.mem_map] at hs
  obtain ⟨l, hl, rfl⟩ := hs
  exact not_mem_of_mem_splitChars '/' x.toList l hl

theorem foldl_normalizeStep_of_no_dotdot (allow : Bool) (segs res : List String)
    (h : ".." ∉ segs) :
    segs.foldl (normalizeStep allow) res
      = res ++ segs.filter (fun s => decide (s ≠ "" ∧ s ≠ ".")) := by
  induction segs generalizing res with
  | nil => simp
  | cons s rest ih =>
    have hs : s ≠ ".." := fun e => h (by simp [e])
    have hrest : ".." ∉ rest := fun e => h (by simp [e])
    rw [List.foldl_cons, ih _ hrest]
    by_cases h1 : s = "" ∨ s = "."
    · have : ¬ (s ≠ "" ∧ s ≠ ".") := by tauto
      simp [normalizeStep, h1, List.filter_cons, this]
    · have : s ≠ "" ∧ s ≠ "." := by tauto
      simp [normalizeStep, h1, hs, List.filter_cons, this]

theorem joinSep_src_toList (segs : List String) :
    ∃ rest, (joinSep ("src" :: segs)).toList = 's' :: rest := by
  cases segs with
  | nil => exact ⟨['r', 'c'], rfl⟩
  | cons t rest => exact ⟨_, rfl⟩

theorem split_append_slash (b : String) : split (b ++ "/") = split b ++ [""] := by
  unfold split
  have : (b ++ "/").toList = b.toList ++ ['/'] := by simp
  rw [this, splitChars_append_sep]
  simp

/-- Normalising `src/seg₁/…/segₙ` when no segment is `..` (or contains a slash) keeps
`src` in front and introduces no `..`. -/
theorem normalize_src_segments (segs : List String) (h1 : ∀ s ∈ segs, '/' ∉ s.toList)
    (h2 : ".." ∉ segs) :
    ".." ∉ split (normalize (joinSep ("src" :: segs)))
      ∧ (split (normalize (joinSep ("src" :: segs)))).head? = some "src" := by
  obtain ⟨rest, hx⟩ := joinSep_src_toList segs
  have hsplit : split (joinSep ("src" :: segs)) = "src" :: segs := by
    apply split_joinSep _ (by simp)
    intro p hp
    simp only [List.mem_cons] at hp
    rcases hp with rfl | hp
    · decide
    · exact h1 p hp
  have hnorm : normalizeString ("src" :: segs) true
      = "src" :: segs.filter (fun s => decide (s ≠ "" ∧ s ≠ ".")) := by
    unfold normalizeString
    rw [foldl_normalizeStep_of_no_dotdot]
    · simp [List.filter_cons]
    · simp only [List.mem_cons, not_or]
      exact ⟨by decide, h2⟩
  obtain ⟨rest2, hb⟩ := joinSep_src_toList (segs.filter (fun s => decide (s ≠ "" ∧ s ≠ ".")))
  have hfs1 : ∀ s ∈ "src" :: segs.filter (fun s => decide (s ≠ "" ∧ s ≠ ".")), '/' ∉ s.toList := by
    intro p hp
    simp only [List.mem_cons] at hp
    rcases hp with rfl | hp
    · decide
    · exact h1 p (List.mem_of_mem_filter hp)
  have hbsplit := split_joinSep _ (by simp) hfs1
  have hfs2 : ".." ∉ segs.filter (fun s => decide (s ≠ "" ∧ s ≠ ".")) :=
    fun hm => h2 (List.mem_of_mem_filter hm)
  have hn : normalize (joinSep ("src" :: segs))
      = joinSep ("src" :: segs.filter (fun s => decide (s ≠ "" ∧ s ≠ ".")))
        ++ (if (joinSep ("src" :: segs)).toList.getLast? = some '/' then "/" else "") := by
    unfold normalize
    rw [hsplit]
    simp only [hx, List.head?_cons]
    simp only [show ¬ (some 's' = some '/') by decide, decide_False, Bool.not_false, hnorm, hb]
    simp
  rw [hn]
  split_ifs
  · rw [split_append_slash, hbsplit]
    refine ⟨?_, by simp⟩
    simp only [List.cons_append, List.mem_cons, List.mem_append, List.mem_singleton, not_or]
    exact ⟨by decide, hfs2, by decide, by simp⟩
  · have : joinSep ("src" :: segs.filter (fun s => decide (s ≠ "" ∧ s ≠ "."))) ++ ""
        = joinSep ("src" :: segs.filter (fun s => decide (s ≠ "" ∧ s ≠ "."))) := by simp
    rw [this, hbsplit]
    refine ⟨?_, by simp⟩
    simp only [List.mem_cons, not_or]
    exact ⟨by decide, hfs2⟩

theorem joinSep_eq_empty_or (segs : List String) :
    joinSep ["src", joinSep segs] = joinSep ("src" :: segs) ∨ joinSep segs = "" := by
  cases segs with
  | nil => right; rfl
  | cons t rest => left; rfl

end path

/-- The default transform with `sourceDir = "src"`, on any path string: no component
of the result is `..` and its first component is `src`. -/
theorem defaultPostFetchTransform_src_components (p : String) :
    ".." ∉ path.split (defaultPostFetchTransform "src" (.str p))
      ∧ (path.split (defaultPostFetchTransform "src" (.str p))).head? = some "src" := by
  unfold defaultPostFetchTransform
  simp only [show ("src" : String) ≠ "" by decide, if_true]
  generalize path.join [(path.parse (path.normalize p)).dir, (path.parse (path.normalize p)).base]
    = noRoot
  have hseg : ∀ s ∈ (path.split noRoot).filter (fun p => decide (p ≠ "..")), '/' ∉ s.toList :=
    fun s hs => path.not_mem_of_mem_split noRoot s (List.mem_of_mem_filter hs)
  have hdd : ".." ∉ (path.split noRoot).filter (fun p => decide (p ≠ "..")) := by
    intro hm
    have := List.of_mem_filter hm
    simp at this
  generalize (path.split noRoot).filter (fun p => decide (p ≠ "..")) = segs at hseg hdd ⊢
  rcases path.joinSep_eq_empty_or segs with h | h
  · by_cases he : path.joinSep segs = ""
    · rw [he]; decide
    · have hj : path.join ["src", path.joinSep segs]
          = path.normalize (path.joinSep ("src" :: segs)) := by
        unfold path.join
        simp only [List.filter_cons, he, show ("src" : String) ≠ "" by decide, ne_eq,
          not_false_eq_true, decide_True, if_true, List.filter_nil, h]
      rw [hj]
      exact path.normalize_src_segments _ hseg hdd
  · rw [h]; decide

/-! ## Lemmas on the per-entry pipeline -/

theorem FS.lookup_of_read (fs : FS) (file text : String) (h : fs.read file = some text) :
    fs.lookup file = some (.file text) := by
  unfold FS.read at h
  split at h
  · rename_i t ht
    rw [ht, Option.some.inj h]
  · exact absurd h (by simp)

theorem task_bind_apply {α β : Type} (t : Task α) (f : α → Task β) (fs : FS) :
    (t >>= f) fs
      = match (t fs).result with
        | .rejected e => ⟨.rejected e, (t fs).fs, (t fs).trace⟩
        | .resolved a => ⟨(f a (t fs).fs).result, (f a (t fs).fs).fs,
            (t fs).trace ++ (f a (t fs).fs).trace⟩ := rfl

theorem task_pure_apply {α : Type} (a : α) (fs : FS) :
    (pure a : Task α) fs = ⟨.resolved a, fs, []⟩ := rfl

/-- The events of the emission step. -/
theorem emitStep_apply (emitContent : Bool) (name : Name) (c : Content)
    (source sourceRoot : String) (fs : FS) :
    emitStep emitContent name c source sourceRoot fs
      = ⟨.resolved (), fs,
          if emitContent then
            if c.truthy then [.emitFile name c]
            else [.emitWarning
              ("Source content was empty for " ++ source ++ " in " ++ sourceRoot ++ ".")]
          else []⟩ := by
  unfold emitStep
  cases emitContent <;> cases h : c.truthy <;> simp [emit, task_pure_apply]

/-- With both predicates false `fetchSource` returns its arguments untouched. -/
theorem fetchSource_gate (host : Host) (options : Options) (source : String) (c : Content)
    (sourceRoot : String) (fs : FS) (hi : options.includeContent source = false)
    (he : options.emitContent source = false) :
    fetchSource host options source c sourceRoot fs
      = ⟨.resolved { source := .str source, sourceContent := c }, fs, []⟩ := by
  unfold fetchSource
  simp [hi, he, task_pure_apply]

/-- Past the gate, a resolved acquisition is followed by naming, emission and the
inclusion choice. -/
theorem fetchSource_resolved (host : Host) (options : Options) (source : String) (c : Content)
    (sourceRoot : String) (fs : FS) (got : Content)
    (hgate : (options.includeContent source || options.emitContent source) = true)
    (hacq : (acquireContent host options source c sourceRoot (host.parseURL source) fs).result
      = .resolved got) :
    fetchSource host options source c sourceRoot fs
      = ⟨.resolved
          { source := entryName host options source sourceRoot (host.parseURL source)
            sourceContent := if options.includeContent source then got else .null },
          (acquireContent host options source c sourceRoot (host.parseURL source) fs).fs,
          (acquireContent host options source c sourceRoot (host.parseURL source) fs).trace
            ++ (if options.emitContent source then
                  if got.truthy then
                    [.emitFile (entryName host options source sourceRoot (host.parseURL source)) got]
                  else [.emitWarning
                    ("Source content was empty for " ++ source ++ " in " ++ sourceRoot ++ ".")]
                else [])⟩ := by
  unfold fetchSource
  have hg : (!options.includeContent source && !options.emitContent source) = false := by
    cases hi : options.includeContent source <;> cases he : options.emitContent source <;>
      simp_all
  simp only [hg, Bool.false_eq_true, if_false, task_bind_apply, hacq, emitStep_apply]
  cases hi : options.includeContent source <;> simp [task_pure_apply]

/-- Past the gate, a rejected acquisition rejects the entry. -/
theorem fetchSource_rejected (host : Host) (options : Options) (source : String) (c : Content)
    (sourceRoot : String) (fs : FS) (e : String)
    (hgate : (options.includeContent source || options.emitContent source) = true)
    (hacq : (acquireContent host options source c sourceRoot (host.parseURL source) fs).result
      = .rejected e) :
    fetchSource host options source c sourceRoot fs
      = ⟨.rejected e,
          (acquireContent host options source c sourceRoot (host.parseURL source) fs).fs,
          (acquireContent host options source c sourceRoot (host.parseURL source) fs).trace⟩ := by
  unfold fetchSource
  have hg : (!options.includeContent source && !options.emitContent source) = false := by
    cases hi : options.includeContent source <;> cases he : options.emitContent source <;>
      simp_all
  simp only [hg, Bool.false_eq_true, if_false, task_bind_apply, hacq]

/-- Content already present in the map is acquired without any call. -/
theorem acquireContent_present (host : Host) (options : Options) (source : String) (c : Content)
    (sourceRoot : String) (sourceURL : Option URL) (fs : FS) (hc : c.truthy = true) :
    acquireContent host options source c sourceRoot sourceURL fs = ⟨.resolved c, fs, []⟩ := by
  unfold acquireContent
  simp [hc, task_pure_apply]


theorem isExcluded_iff (options : Options) (source : String) :
    isExcluded options source = true ↔ ∃ f ∈ options.exclude, f source = true := by
  simp [isExcluded, List.any_eq_true]

/-! ## Filter engine -/

/-- C9: `filterFunction(o, d)` is `o` for a function, the constant predicate for a
boolean, exact match for a string, `test` for a regular expression and `d` for every
other value; `filterFunctions` maps it over an array and wraps any other value in a
one-element list; a source is excluded exactly when some predicate of the compiled
list returns true on it. -/
theorem filterFunction_compiles (d : String → Bool) :
    (∀ f, filterFunction (.func f) d = f)
    ∧ (∀ b, filterFunction (.bool b) d = fun _ => b)
    ∧ (∀ s input, filterFunction (.str s) d input = decide (input = s))
    ∧ (∀ r input, filterFunction (.regExp r) d input = r.test input)
    ∧ filterFunction .undefined d = d
    ∧ filterFunction .null d = d
    ∧ (∀ n, filterFunction (.number n) d = d)
    ∧ filterFunction .object d = d
    ∧ (∀ items, filterFunction (.array items) d = d)
    ∧ (∀ items, filterFunctions (.array items) d = items.map (fun x => filterFunction x d))
    ∧ (∀ o, (∀ items, o ≠ .array items) → filterFunctions o d = [filterFunction o d])
    ∧ (∀ (raw : RawOptions) (source : String),
        isExcluded (resolveOptions raw) source = true
          ↔ ∃ f ∈ filterFunctions raw.exclude (fun _ => false), f source = true) := by
  refine ⟨fun _ => rfl, fun _ => rfl, fun _ _ => rfl, fun _ _ => rfl, rfl, rfl, fun _ => rfl,
    rfl, fun _ => rfl, fun _ => rfl, ?_, ?_⟩
  · intro o ho
    cases o <;> first | rfl | exact absurd rfl (ho _)
  · intro raw source
    exact isExcluded_iff (resolveOptions raw) source

/-- C9 at a concrete configuration: `exclude: ["a.js", true]` compiles to two
predicates and excludes `b.js` through the second. -/
theorem filterFunction_compiles_witness :
    filterFunctions (.str "a.js") (fun _ => false) = [filterFunction (.str "a.js") (fun _ => false)]
    ∧ isExcluded (resolveOptions { defaultRawOptions with exclude := .array [.str "a.js", .bool true] })
        "b.js" = true :=
  ⟨(filterFunction_compiles (fun _ => false)).2.2.2.2.2.2.2.2.2.2.1 (.str "a.js")
      (fun _ h => FilterOption.noConfusion h),
   ((filterFunction_compiles (fun _ => false)).2.2.2.2.2.2.2.2.2.2.2
      { defaultRawOptions with exclude := .array [.str "a.js", .bool true] } "b.js").2
      ⟨fun _ => true, by simp [filterFunctions, filterFunction, defaultRawOptions], rfl⟩⟩

/-! ## Exclusion -/

/-- C2: when some compiled exclusion predicate returns true on `s`, the entry for `s`
makes no call at all (no GET, no cache check, read or write, no resolve or file read,
no `emitFile`, no `preFetchTransform`), leaves the file system as it was, and resolves
with `{ source: s }`, whose missing content is written to the map as `null`, whatever
`sourcesContent` holds. -/
theorem excluded_entry_short_circuits (host : Host) (raw : RawOptions)
    (sourcesContent : Option (List (Option String))) (sourceRoot s : String) (index : Nat)
    (fs : FS)
    (h : ∃ f ∈ filterFunctions raw.exclude (fun _ => false), f s = true) :
    resolveEntry host (resolveOptions raw) sourcesContent sourceRoot (s, index) fs
        = ⟨.resolved { source := .str s, sourceContent := .undefined }, fs, []⟩
      ∧ Content.orNull .undefined = .null := by
  have hx : isExcluded (resolveOptions raw) s = true :=
    (isExcluded_iff (resolveOptions raw) s).2 h
  refine ⟨?_, rfl⟩
  unfold resolveEntry
  simp [hx, task_pure_apply]

/-- C2 at a concrete entry: `exclude: /…/` matching a remote source that has content in
the map. -/
theorem excluded_entry_short_circuits_witness :
    resolveEntry exampleHost
        (resolveOptions { defaultRawOptions with
          exclude := .array [.str "a.js", .regExp ⟨fun input => "https:".toList.isPrefixOf input.toList⟩] })
        (some [some "console.log(0)"]) "/project/dist" ("https://cdn.example/lib/a.js", 0) remoteFS
        = ⟨.resolved { source := .str "https://cdn.example/lib/a.js", sourceContent := .undefined },
            remoteFS, []⟩
      ∧ Content.orNull .undefined = .null :=
  excluded_entry_short_circuits exampleHost _ _ _ _ _ _
    ⟨fun input => "https:".toList.isPrefixOf input.toList,
      by simp [filterFunctions, filterFunction, defaultRawOptions], by decide⟩

/-! ## Default post-fetch transform -/

/-- C5, evaluated: with no `postFetchTransform` configured, the transform held in the
resolved options maps the path `dist/a.js` to the function value
`defaultPostFetchTransform("dist/a.js")`, not to the string
`defaultPostFetchTransform("src")("dist/a.js") = "src/dist/a.js"`. -/
theorem resolveOptions_default_postFetchTransform_is_factory :
    (resolveOptions defaultRawOptions).postFetchTransform (.str "dist/a.js")
        = .closure (.str "dist/a.js")
      ∧ (resolveOptions defaultRawOptions).postFetchTransform (.str "dist/a.js")
        ≠ .str (defaultPostFetchTransform (resolveOptions defaultRawOptions).sourceDir
            (.str "dist/a.js"))
      ∧ defaultPostFetchTransform (resolveOptions defaultRawOptions).sourceDir (.str "dist/a.js")
        = "src/dist/a.js" := by
  refine ⟨rfl, ?_, by decide⟩
  intro h
  exact Name.noConfusion h

/-- C6: for every path string `p`, no component of `defaultPostFetchTransform("src")(p)`
is `..` and its first component is `src`; `../../etc/passwd` yields `src/etc/passwd`. -/
theorem defaultPostFetchTransform_strips_traversal :
    (∀ p : String,
      ".." ∉ path.split (defaultPostFetchTransform "src" (.str p))
        ∧ (path.split (defaultPostFetchTransform "src" (.str p))).head? = some "src")
    ∧ defaultPostFetchTransform "src" (.str "../../etc/passwd") = "src/etc/passwd" :=
  ⟨defaultPostFetchTransform_src_components, by decide⟩

/-! ## Order and alignment of the results -/

theorem collect_of_forall_resolved {α : Type} (l : List (Settled α))
    (h : ∀ x ∈ l, ∃ r, x = .resolved r) :
    ∃ rs, collect l = .resolved rs ∧ l = rs.map Settled.resolved := by
  induction l with
  | nil => exact ⟨[], rfl, rfl⟩
  | cons x rest ih =>
    obtain ⟨r, rfl⟩ := h x (by simp)
    obtain ⟨rs, h1, h2⟩ := ih (fun y hy => h y (by simp [hy]))
    exact ⟨r :: rs, by simp [collect, h1], by simp [h2]⟩

theorem collect_rejected_of_head {α : Type} (e : String) (rest : List (Settled α)) :
    collect (.rejected e :: rest) = .rejected e := rfl

theorem foldl_push_eq_map {α β : Type} (f : α → β) (l : List α) (acc : List β) :
    l.foldl (fun acc next => acc ++ [f next]) acc = acc ++ l.map f := by
  induction l generalizing acc with
  | nil => simp
  | cons a rest ih => simp [ih]

/-- The settled results of the entries, in index order. -/
theorem fetchSources_entry_results (host : Host) (options : Options) (sources : List String)
    (sourcesContent : Option (List (Option String))) (sourceRoot : String) (fs : FS) (i : Nat)
    (h : i < sources.length) :
    ((fetchSources host options sources sourcesContent sourceRoot fs).entries.map
        (fun o => o.result))[i]?
      = some (resolveEntry host options sourcesContent sourceRoot (sources.get ⟨i, h⟩, i) fs).result := by
  simp [fetchSources, List.getElem?_map, List.getElem?_enum, List.getElem?_eq_getElem h]

theorem fetchSources_entries_length (host : Host) (options : Options) (sources : List String)
    (sourcesContent : Option (List (Option String))) (sourceRoot : String) (fs : FS) :
    (fetchSources host options sources sourcesContent sourceRoot fs).entries.length
      = sources.length := by
  simp [fetchSources]

/-- When no per-entry resolution rejects, `fetchSources` resolves with exactly
`N = sources.length` results, the `i`-th being the resolution of the entry
`(sources[i], i)` (which reads `sourcesContent[i]`), `N` entries having been dispatched;
`loadSources`, once it has loaded that map, writes back `sources` and `sourcesContent`
arrays of length `N`, the `i`-th elements being the `source` and the
`sourceContent || null` of the `i`-th result. -/
theorem fetchSources_aligned (host : Host) (options : Options) (sources : List String)
    (sourcesContent : Option (List (Option String))) (sourceRoot : String) (fs : FS)
    (hok : ∀ i (h : i < sources.length), ∃ r,
      (resolveEntry host options sourcesContent sourceRoot (sources.get ⟨i, h⟩, i) fs).result
        = .resolved r) :
    ∃ results : List ResolvedSource,
      (fetchSources host options sources sourcesContent sourceRoot fs).result = .resolved results
      ∧ results.length = sources.length
      ∧ (∀ i (h : i < sources.length), ∃ r, results[i]? = some r
          ∧ (resolveEntry host options sourcesContent sourceRoot (sources.get ⟨i, h⟩, i) fs).result
              = .resolved r)
      ∧ (fetchSources host options sources sourcesContent sourceRoot fs).entries.length
          = sources.length
      ∧ (∀ content url mapPath text mapRoot,
          host.getFrom content = some url → url ≠ "" →
          host.resolve host.context (host.urlToRequest url) = .resolved mapPath →
          fs.read mapPath = some text →
          host.parseJSON text = some ⟨sources, sourcesContent, mapRoot⟩ →
          sourceRoot = path.join [path.dirname mapPath, mapRoot.getD ""] →
          ∃ map, (loadSources host options content fs).result
              = .resolved ⟨host.removeFrom content, some map⟩
            ∧ map.sources = results.map (fun r => r.source)
            ∧ map.sourcesContent = results.map (fun r => r.sourceContent.orNull)
            ∧ map.sources.length = sources.length
            ∧ map.sourcesContent.length = sources.length) := by
  have hall : ∀ x ∈ (fetchSources host options sources sourcesContent sourceRoot fs).entries.map
      (fun o => o.result), ∃ r, x = .resolved r := by
    intro x hx
    obtain ⟨i, hi, hxi⟩ := List.getElem_of_mem hx
    have hlen : i < sources.length := by
      simpa [fetchSources_entries_length] using hi
    have hget := fetchSources_entry_results host options sources sourcesContent sourceRoot fs i hlen
    rw [List.getElem?_eq_getElem hi, hxi] at hget
    obtain ⟨r, hr⟩ := hok i hlen
    exact ⟨r, by rw [Option.some.inj hget, hr]⟩
  obtain ⟨results, hres, hmap⟩ := collect_of_forall_resolved _ hall
  have hlen : results.length = sources.length := by
    have := congrArg List.length hmap
    simpa [fetchSources_entries_length] using this.symm
  have hresult : (fetchSources host options sources sourcesContent sourceRoot fs).result
      = .resolved results := hres
  refine ⟨results, hresult, hlen, ?_,
    fetchSources_entries_length host options sources sourcesContent sourceRoot fs, ?_⟩
  · intro i h
    have hget := fetchSources_entry_results host options sources sourcesContent sourceRoot fs i h
    rw [hmap, List.getElem?_map] at hget
    have hi : i < results.length := by omega
    rw [List.getElem?_eq_getElem hi] at hget ⊢
    simp only [Option.map_some', Option.some.injEq] at hget
    exact ⟨results[i], rfl, hget.symm⟩
  · intro content url mapPath text mapRoot hurl hne hresolve hread hparse hroot
    refine ⟨⟨results.map (fun r => r.source), results.map (fun r => r.sourceContent.orNull),
      mapRoot⟩, ?_, rfl, rfl, by simp [hlen], by simp [hlen]⟩
    unfold loadSources
    simp only [hurl, hne, if_false, hresolve, readFileUtf8, FS.lookup_of_read fs _ _ hread,
      hparse, ← hroot, hresult, foldl_push_eq_map, List.nil_append]

/-- The alignment at a concrete map: two entries, the second fetched from the CDN. -/
theorem fetchSources_aligned_example :
    ∃ results : List ResolvedSource,
      (fetchSources exampleHost (resolveOptions namedRawOptions)
          ["a.js", "https://cdn.example/lib/a.js"] (some [some "console.log(0)", none])
          "/project/dist" remoteFS).result = .resolved results
      ∧ results.length = 2
      ∧ ∃ map, (loadSources exampleHost (resolveOptions namedRawOptions)
            "x;\n//# sourceMappingURL=map.json" remoteFS).result
            = .resolved ⟨"x;\n", some map⟩
          ∧ map.sources.length = 2 ∧ map.sourcesContent.length = 2 := by
  obtain ⟨results, h1, h2, _, _, h4⟩ :=
    fetchSources_aligned exampleHost (resolveOptions namedRawOptions)
      ["a.js", "https://cdn.example/lib/a.js"] (some [some "console.log(0)", none])
      "/project/dist" remoteFS
      (by
        intro i h
        match i, h with
        | 0, _ =>
          refine ⟨⟨.str "src/dist/a.js", .str "console.log(0)"⟩, ?_⟩
          show (resolveEntry exampleHost (resolveOptions namedRawOptions)
            (some [some "console.log(0)", none]) "/project/dist" ("a.js", 0) remoteFS).result = _
          decide
        | 1, _ =>
          refine ⟨⟨.str "src/cdn.example/lib/a.js", .str "export default 1"⟩, ?_⟩
          show (resolveEntry exampleHost (resolveOptions namedRawOptions)
            (some [some "console.log(0)", none]) "/project/dist"
            ("https://cdn.example/lib/a.js", 1) remoteFS).result = _
          decide)
  obtain ⟨map, hm1, _, _, hm4, hm5⟩ :=
    h4 "x;\n//# sourceMappingURL=map.json" "map.json" "/project/dist/map.json" "remote" none
      (by decide) (by decide) (by decide) (by decide) rfl (by decide)
  exact ⟨results, h1, h2, map, hm1, hm4, hm5⟩

theorem collect_rejected_of_mem {α : Type} (l : List (Settled α))
    (h : ∃ x ∈ l, ∃ e, x = Settled.rejected e) : ∃ e, collect l = .rejected e := by
  induction l with
  | nil => simp at h
  | cons x rest ih =>
    cases x with
    | rejected e => exact ⟨e, rfl⟩
    | resolved a =>
      obtain ⟨y, hy, e, rfl⟩ := h
      simp only [List.mem_cons] at hy
      rcases hy with hy | hy
      · exact Settled.noConfusion hy
      · obtain ⟨e2, he2⟩ := ih ⟨_, hy, e, rfl⟩
        exact ⟨e2, by simp [collect, he2]⟩

/-- One rejected entry rejects `fetchSources`, at whatever index it is and whatever the
other entries do. -/
theorem fetchSources_rejected_of_entry (host : Host) (options : Options) (sources : List String)
    (sourcesContent : Option (List (Option String))) (sourceRoot : String) (fs : FS) (i : Nat)
    (h : i < sources.length) (e : String)
    (hrej : (resolveEntry host options sourcesContent sourceRoot (sources.get ⟨i, h⟩, i) fs).result
      = .rejected e) :
    ∃ e2, (fetchSources host options sources sourcesContent sourceRoot fs).result
      = .rejected e2 := by
  apply collect_rejected_of_mem
  have hget := fetchSources_entry_results host options sources sourcesContent sourceRoot fs i h
  rw [hrej] at hget
  exact ⟨_, List.getElem?_mem hget, e, rfl⟩

/-- A rejected `fetchSources` rejects `loadSources`: no map is written back. -/
theorem loadSources_rejected_of_fetchSources (host : Host) (options : Options) (fs : FS)
    (content url mapPath text : String) (sourceMap : SourceMap) (e : String)
    (hurl : host.getFrom content = some url) (hne : url ≠ "")
    (hresolve : host.resolve host.context (host.urlToRequest url) = .resolved mapPath)
    (hread : fs.read mapPath = some text)
    (hparse : host.parseJSON text = some sourceMap)
    (hrej : (fetchSources host options sourceMap.sources sourceMap.sourcesContent
        (path.join [path.dirname mapPath, sourceMap.sourceRoot.getD ""]) fs).result
      = .rejected e) :
    (loadSources host options content fs).result = .rejected e := by
  unfold loadSources
  simp only [hurl, hne, if_false, hresolve, readFileUtf8, FS.lookup_of_read fs _ _ hread,
    hparse, hrej]

/-- C1, evaluated at a map with a local entry and a remote entry whose response stream
is reset: the local entry resolves, the remote entry rejects, and `fetchSources` rejects
instead of returning two results, in either order of the two sources; `loadSources`
rejects and writes nothing back. The claim asks for exactly `N` results for every
source map. -/
theorem fetchSources_rejects_with_entry :
    (fetchSources offlineHost (resolveOptions namedRawOptions)
        ["a.js", "https://cdn.example/lib/a.js"] (some [some "console.log(0)", none])
        "/project/dist" remoteFS).result = .rejected "ECONNRESET"
    ∧ (fetchSources offlineHost (resolveOptions namedRawOptions)
        ["https://cdn.example/lib/a.js", "a.js"] (some [none, some "console.log(0)"])
        "/project/dist" remoteFS).result = .rejected "ECONNRESET"
    ∧ (resolveEntry offlineHost (resolveOptions namedRawOptions)
        (some [some "console.log(0)", none]) "/project/dist" ("a.js", 0) remoteFS).result
      = .resolved ⟨.str "src/dist/a.js", .str "console.log(0)"⟩
    ∧ (¬ ∃ results : List ResolvedSource,
        (fetchSources offlineHost (resolveOptions namedRawOptions)
          ["a.js", "https://cdn.example/lib/a.js"] (some [some "console.log(0)", none])
          "/project/dist" remoteFS).result = .resolved results
        ∧ results.length = 2)
    ∧ (loadSources offlineHost (resolveOptions namedRawOptions)
        "x;\n//# sourceMappingURL=map.json" remoteFS).result = .rejected "ECONNRESET" := by
  have h : (fetchSources offlineHost (resolveOptions namedRawOptions)
        ["a.js", "https://cdn.example/lib/a.js"] (some [some "console.log(0)", none])
        "/project/dist" remoteFS).result = .rejected "ECONNRESET" := by decide
  refine ⟨h, by decide, by decide, ?_, by decide⟩
  rintro ⟨results, hr, _⟩
  rw [h] at hr
  exact Settled.noConfusion hr

/-! ## Inclusion, emission and content already in the map -/

theorem emits_pure {α : Type} (P : Event → Prop) (a : α) : Emits P (pure a : Task α) := by
  intro fs e he
  simp [task_pure_apply] at he

theorem emits_bind {α β : Type} (P : Event → Prop) (t : Task α) (f : α → Task β)
    (ht : Emits P t) (hf : ∀ a, Emits P (f a)) : Emits P (t >>= f) := by
  intro fs e he
  rw [task_bind_apply] at he
  split at he
  · exact ht fs e he
  · rename_i a _
    simp only [List.mem_append] at he
    rcases he with he | he
    · exact ht fs e he
    · exact hf a _ e he

theorem emits_emit (P : Event → Prop) (e : Event) (h : P e) : Emits P (emit e) := by
  intro fs x hx
  simp [emit] at hx
  exact hx ▸ h

theorem emits_ite {α : Type} (P : Event → Prop) (c : Prop) [Decidable c] (t u : Task α)
    (ht : Emits P t) (hu : Emits P u) : Emits P (if c then t else u) := by
  split_ifs
  · exact ht
  · exact hu

theorem emits_canReadFromCache (P : Event → Prop) (cachePath : Option String)
    (h : ∀ file, P (.access file)) : Emits P (canReadFromCache cachePath) := by
  unfold canReadFromCache
  split_ifs
  · intro fs e he
    simp at he
    exact he ▸ h _
  · exact emits_pure P false

theorem emits_readFileBuffer (P : Event → Prop) (file : String)
    (h : ∀ f u, P (.readFile f u)) : Emits P (readFileBuffer file) := by
  intro fs e he
  unfold readFileBuffer at he
  split at he <;> simp at he <;> exact he ▸ h _ _

theorem emits_readFileUtf8 (P : Event → Prop) (file : String)
    (h : ∀ f u, P (.readFile f u)) : Emits P (readFileUtf8 file) := by
  intro fs e he
  unfold readFileUtf8 at he
  split at he <;> simp at he <;> exact he ▸ h _ _

theorem emits_writeText (P : Event → Prop) (file : String) (data : Content) (text : String)
    (h : ∀ f d, P (.writeFile f d)) : Emits P (writeText file data text) := by
  intro fs e he
  unfold writeText at he
  split at he <;> simp at he <;> exact he ▸ h _ _

theorem emits_writeFile (P : Event → Prop) (file : String) (data : Content)
    (h : ∀ f d, P (.writeFile f d)) : Emits P (writeFile file data) := by
  unfold writeFile
  split
  · exact emits_writeText P _ _ _ h
  · exact emits_writeText P _ _ _ h
  · intro fs e he
    simp at he
    exact he ▸ h _ _

theorem emits_mkdir (P : Event → Prop) (dir : String) (h : ∀ d, P (.mkdir d)) :
    Emits P (mkdir dir) := by
  intro fs e he
  unfold mkdir at he
  split at he <;> simp at he <;> exact he ▸ h _

theorem emits_downloadHttpSource (P : Event → Prop) (host : Host) (module : HttpModule)
    (url : URL) (h : ∀ m u, P (.get m u)) : Emits P (downloadHttpSource host module url) := by
  intro fs e he
  unfold downloadHttpSource at he
  split at he <;> simp at he <;> exact he ▸ h _ _

theorem emits_fetchRemote (P : Event → Prop) (host : Host) (url : URL)
    (hw : ∀ m, P (.emitWarning m)) (hg : ∀ m u, P (.get m u)) :
    Emits P (fetchRemote host url) := by
  unfold fetchRemote
  refine emits_ite P _ _ _ ?_ (emits_ite P _ _ _ ?_ ?_)
  · exact emits_bind P _ _ (emits_emit P _ (hw _)) (fun _ => emits_downloadHttpSource P _ _ _ hg)
  · exact emits_downloadHttpSource P _ _ _ hg
  · exact emits_bind P _ _ (emits_emit P _ (hw _)) (fun _ => emits_pure P _)

theorem emits_fetchLocal (P : Event → Prop) (host : Host) (source sourceRoot : String)
    (hw : ∀ m, P (.emitWarning m)) (hr : ∀ c r, P (.resolve c r))
    (hf : ∀ f u, P (.readFile f u)) : Emits P (fetchLocal host source sourceRoot) := by
  intro fs e he
  unfold fetchLocal at he
  split at he
  · simp at he
    rcases he with rfl | rfl
    · exact hr _ _
    · exact hw _
  · rename_i sourcePath _
    have hread := emits_readFileUtf8 P sourcePath hf fs
    dsimp only at he
    split at he
    · simp only [List.mem_cons] at he
      rcases he with rfl | he
      · exact hr _ _
      · exact hread e he
    · simp only [List.cons_append, List.mem_cons, List.mem_append, List.mem_singleton,
        List.not_mem_nil, or_false] at he
      rcases he with rfl | he | rfl
      · exact hr _ _
      · exact hread e he
      · exact hw _

/-- Every call of the acquisition is a warning or a call of the fetch step. -/
theorem emits_acquireContent (P : Event → Prop) (host : Host) (options : Options)
    (source : String) (c : Content) (sourceRoot : String) (sourceURL : Option URL)
    (hw : ∀ m, P (.emitWarning m)) (hfetch : ∀ e : Event, e.isFetchStep = true → P e) :
    Emits P (acquireContent host options source c sourceRoot sourceURL) := by
  unfold acquireContent
  split_ifs
  · cases sourceURL with
    | none =>
      exact emits_fetchLocal P host source sourceRoot hw (fun _ _ => hfetch _ rfl)
        (fun _ _ => hfetch _ rfl)
    | some url =>
      refine emits_bind P _ _ (emits_canReadFromCache P _ (fun _ => hfetch _ rfl)) (fun b => ?_)
      refine emits_ite P _ _ _ (emits_readFileBuffer P _ (fun _ _ => hfetch _ rfl)) ?_
      refine emits_bind P _ _ (emits_fetchRemote P host url hw (fun _ _ => hfetch _ rfl))
        (fun fetched => ?_)
      refine emits_ite P _ _ _ ?_ (emits_pure P _)
      refine emits_bind P _ _ (emits_mkdir P _ (fun _ => hfetch _ rfl)) (fun _ => ?_)
      exact emits_bind P _ _ (emits_writeFile P _ _ (fun _ _ => hfetch _ rfl))
        (fun _ => emits_pure P _)
  · exact emits_pure P _

/-- The acquisition never calls `emitFile`. -/
theorem acquireContent_no_emitFile (host : Host) (options : Options) (source : String)
    (c : Content) (sourceRoot : String) (sourceURL : Option URL) (fs : FS) :
    ∀ e ∈ (acquireContent host options source c sourceRoot sourceURL fs).trace,
      e.isEmitFile = false :=
  emits_acquireContent (fun e => e.isEmitFile = false) host options source c sourceRoot sourceURL
    (fun _ => rfl) (fun e he => by cases e <;> simp_all [Event.isFetchStep, Event.isEmitFile]) fs

theorem fetchLocal_resolves (host : Host) (source sourceRoot : String) (fs : FS) :
    ∃ got, (fetchLocal host source sourceRoot fs).result = .resolved got := by
  unfold fetchLocal
  split
  · exact ⟨_, rfl⟩
  · dsimp only
    split <;> exact ⟨_, rfl⟩

/-- C3 (amended): for an entry whose inclusion predicate returns false, `fetchSource`
returns `{ source: name, sourceContent: null }`, `name` being the output of
`postFetchTransform`, whenever the emission predicate returns true and the content
acquisition does not reject (it cannot reject for content already in the map or for a
source that is not a URL); when the emission predicate returns false as well,
`fetchSource` returns `{ source, sourceContent }` as it received them, without calling
`postFetchTransform`. -/
theorem fetchSource_without_inclusion (host : Host) (options : Options) (source : String)
    (c : Content) (sourceRoot : String) (fs : FS)
    (hi : options.includeContent source = false) :
    (options.emitContent source = true →
      ∀ got,
        (acquireContent host options source c sourceRoot (host.parseURL source) fs).result
          = .resolved got →
        (fetchSource host options source c sourceRoot fs).result
          = .resolved
              { source := options.postFetchTransform
                  (match host.parseURL source with
                   | some url => .url url
                   | none => .str (host.relative host.rootContext (path.join [sourceRoot, source])))
                sourceContent := .null })
    ∧ (c.truthy = true ∨ host.parseURL source = none →
        ∃ got, (acquireContent host options source c sourceRoot (host.parseURL source) fs).result
          = .resolved got)
    ∧ (options.emitContent source = false →
        fetchSource host options source c sourceRoot fs
          = ⟨.resolved { source := .str source, sourceContent := c }, fs, []⟩) := by
  refine ⟨?_, ?_, ?_⟩
  · intro he got hacq
    rw [fetchSource_resolved host options source c sourceRoot fs got (by simp [he]) hacq]
    simp [hi, entryName]
  · intro h
    by_cases hc : c.truthy = true
    · exact ⟨c, by rw [acquireContent_present _ _ _ _ _ _ _ hc]⟩
    · have hnone : host.parseURL source = none := by tauto
      rw [hnone]
      have hc2 : c.truthy = false := by simpa using hc
      unfold acquireContent
      simp only [hc2, Bool.not_false, if_true]
      exact fetchLocal_resolves host source sourceRoot fs
  · intro he
    exact fetchSource_gate host options source c sourceRoot fs hi he

/-- C3 at a concrete entry: `includeContent: false`, the local `a.js` is read and
emitted, the map gets `null`. -/
theorem fetchSource_without_inclusion_witness :
    (fetchSource exampleHost (resolveOptions omitRawOptions) "a.js" .null "/project/dist"
        exampleFS).result
      = .resolved { source := .str "src/dist/a.js", sourceContent := .null } :=
  (fetchSource_without_inclusion exampleHost (resolveOptions omitRawOptions) "a.js" .null
    "/project/dist" exampleFS (by decide)).1 (by decide) (.str "console.log(1)") (by decide)

/-- C3 as stated fails with emission disabled: the entry comes back under its own name
and with the content it had in the map; and with emission enabled nothing is returned
when the fetch of a remote source rejects. -/
theorem fetchSource_gate_keeps_content :
    (fetchSource exampleHost (resolveOptions inertRawOptions) "a.js" (.str "console.log(0)")
        "/project/dist" exampleFS).result
      = .resolved { source := .str "a.js", sourceContent := .str "console.log(0)" }
    ∧ (fetchSource exampleHost (resolveOptions inertRawOptions) "a.js" (.str "console.log(0)")
        "/project/dist" exampleFS).result
      ≠ .resolved
          { source := (resolveOptions inertRawOptions).postFetchTransform (.str "dist/a.js")
            sourceContent := .null }
    ∧ (fetchSource offlineHost (resolveOptions omitRawOptions) "https://cdn.example/lib/a.js"
        .null "/project/dist" remoteFS).result = .rejected "ECONNRESET" := by
  decide

/-- C7 (amended): for a non-empty string already in the map, `fetchSource` makes no call
of the fetch step (no GET, no cache check, read or write, no resolve or file read) and
leaves the file system as it was; the content written to the map is that string when
the inclusion predicate returns true or the emission predicate returns false, and
`null` when inclusion is false and emission is true; the `source` is the post-fetch
name, or the source itself when both predicates are false. -/
theorem fetchSource_keeps_existing_content (host : Host) (options : Options) (source : String)
    (text : String) (sourceRoot : String) (fs : FS) (hne : text ≠ "") :
    (∀ e ∈ (fetchSource host options source (.str text) sourceRoot fs).trace,
        e.isFetchStep = false)
    ∧ (fetchSource host options source (.str text) sourceRoot fs).fs = fs
    ∧ ∃ r, (fetchSource host options source (.str text) sourceRoot fs).result = .resolved r
        ∧ r.sourceContent.orNull
            = (if options.includeContent source = false ∧ options.emitContent source = true
               then .null else .str text)
        ∧ r.source
            = (if options.includeContent source = false ∧ options.emitContent source = false
               then .str source
               else entryName host options source sourceRoot (host.parseURL source)) := by
  have hc : (Content.str text).truthy = true := by simp [Content.truthy, hne]
  by_cases hgate : (options.includeContent source || options.emitContent source) = true
  · have hacq := acquireContent_present host options source (.str text) sourceRoot
      (host.parseURL source) fs hc
    rw [fetchSource_resolved host options source (.str text) sourceRoot fs (.str text) hgate
      (by rw [hacq])]
    rw [hacq]
    refine ⟨?_, rfl, _, rfl, ?_, ?_⟩
    · intro e he
      cases hem : options.emitContent source <;> simp [hem, hc] at he
      subst he
      rfl
    · cases hin : options.includeContent source <;> cases hem : options.emitContent source <;>
        simp_all [Content.orNull, Content.truthy]
    · cases hin : options.includeContent source <;> cases hem : options.emitContent source <;>
        simp_all
  · have hi : options.includeContent source = false := by
      cases h : options.includeContent source <;> simp_all
    have he : options.emitContent source = false := by
      cases h : options.emitContent source <;> simp_all
    rw [fetchSource_gate host options source (.str text) sourceRoot fs hi he]
    refine ⟨by simp, rfl, _, rfl, ?_, ?_⟩
    · simp [hi, he, Content.orNull, Content.truthy, hne]
    · simp [hi, he]

/-- C7 at a concrete entry: content in the map for a remote source; nothing is fetched
and the content is kept. -/
theorem fetchSource_keeps_existing_content_witness :
    (∀ e ∈ (fetchSource exampleHost (resolveOptions namedRawOptions)
          "https://cdn.example/lib/a.js" (.str "console.log(0)") "/project/dist" remoteFS).trace,
        e.isFetchStep = false)
    ∧ (fetchSource exampleHost (resolveOptions namedRawOptions)
          "https://cdn.example/lib/a.js" (.str "console.log(0)") "/project/dist" remoteFS).fs
        = remoteFS
    ∧ ∃ r, (fetchSource exampleHost (resolveOptions namedRawOptions)
          "https://cdn.example/lib/a.js" (.str "console.log(0)") "/project/dist" remoteFS).result
          = .resolved r
        ∧ r.sourceContent.orNull
            = (if (resolveOptions namedRawOptions).includeContent "https://cdn.example/lib/a.js"
                  = false
                ∧ (resolveOptions namedRawOptions).emitContent "https://cdn.example/lib/a.js" = true
               then .null else .str "console.log(0)")
        ∧ r.source
            = (if (resolveOptions namedRawOptions).includeContent "https://cdn.example/lib/a.js"
                  = false
                ∧ (resolveOptions namedRawOptions).emitContent "https://cdn.example/lib/a.js" = false
               then .str "https://cdn.example/lib/a.js"
               else entryName exampleHost (resolveOptions namedRawOptions)
                 "https://cdn.example/lib/a.js" "/project/dist"
                 (exampleHost.parseURL "https://cdn.example/lib/a.js")) :=
  fetchSource_keeps_existing_content exampleHost (resolveOptions namedRawOptions)
    "https://cdn.example/lib/a.js" "console.log(0)" "/project/dist" remoteFS (by decide)

/-- C7 as stated fails with inclusion disabled and emission enabled: the entry of the
two-entry map that has content `console.log(0)` is written back with `null`. -/
theorem loadSources_drops_existing_content :
    (loadSources exampleHost (resolveOptions omitRawOptions)
        "x;\n//# sourceMappingURL=map.json" remoteFS).result
      = .resolved
          ⟨"x;\n", some ⟨[.str "src/dist/a.js", .str "src/cdn.example/lib/a.js"],
            [.null, .null], none⟩⟩
    ∧ (fetchSource exampleHost (resolveOptions omitRawOptions) "a.js" (.str "console.log(0)")
        "/project/dist" remoteFS).result
      = .resolved { source := .str "src/dist/a.js", sourceContent := .null }
    ∧ Content.orNull .null ≠ .str "console.log(0)" := by
  decide

/-- C10: with the emission predicate true and the acquisition resolved with `got`,
`fetchSource` resolves with a result whose `source` is the post-fetch name; when `got`
is empty (the empty string, `null` or `undefined`) its calls are those of the
acquisition followed by the one warning `Source content was empty …` and `emitFile` is
never called; when `got` is non-empty its calls are those of the acquisition followed
by the one call `emitFile(name, got)` with that same name. -/
theorem fetchSource_emission (host : Host) (options : Options) (source : String) (c : Content)
    (sourceRoot : String) (fs : FS) (got : Content)
    (he : options.emitContent source = true)
    (hacq : (acquireContent host options source c sourceRoot (host.parseURL source) fs).result
      = .resolved got) :
    (∃ r, (fetchSource host options source c sourceRoot fs).result = .resolved r
      ∧ r.source = options.postFetchTransform
          (match host.parseURL source with
           | some url => .url url
           | none => .str (host.relative host.rootContext (path.join [sourceRoot, source]))))
    ∧ (got.truthy = false →
        (fetchSource host options source c sourceRoot fs).trace
          = (acquireContent host options source c sourceRoot (host.parseURL source) fs).trace
            ++ [.emitWarning
                ("Source content was empty for " ++ source ++ " in " ++ sourceRoot ++ ".")]
        ∧ (fetchSource host options source c sourceRoot fs).trace.filter Event.isEmitFile = [])
    ∧ (got.truthy = true →
        (fetchSource host options source c sourceRoot fs).trace
          = (acquireContent host options source c sourceRoot (host.parseURL source) fs).trace
            ++ [.emitFile
                (options.postFetchTransform
                  (match host.parseURL source with
                   | some url => .url url
                   | none =>
                     .str (host.relative host.rootContext (path.join [sourceRoot, source]))))
                got]
        ∧ (fetchSource host options source c sourceRoot fs).trace.filter Event.isEmitFile
          = [.emitFile
              (options.postFetchTransform
                (match host.parseURL source with
                 | some url => .url url
                 | none =>
                   .str (host.relative host.rootContext (path.join [sourceRoot, source]))))
              got])
    ∧ (∀ x : Content, x.truthy = false ↔ x = .str "" ∨ x = .null ∨ x = .undefined) := by
  have hfilter : (acquireContent host options source c sourceRoot (host.parseURL source)
      fs).trace.filter Event.isEmitFile = [] := by
    rw [List.filter_eq_nil_iff]
    intro e hmem
    simp [acquireContent_no_emitFile host options source c sourceRoot _ fs e hmem]
  rw [fetchSource_resolved host options source c sourceRoot fs got (by simp [he]) hacq]
  refine ⟨⟨_, rfl, rfl⟩, ?_, ?_, ?_⟩
  · intro hg
    simp [he, hg, hfilter, Event.isEmitFile]
  · intro hg
    simp [he, hg, hfilter, Event.isEmitFile, entryName]
  · intro x
    cases x <;> simp [Content.truthy]

/-- C10 at two concrete entries: with an empty local `a.js` a warning is emitted and no
file; with `console.log(1)` in `a.js` the file is emitted once under the returned
name. -/
theorem fetchSource_emission_witness :
    ((fetchSource exampleHost (resolveOptions namedRawOptions) "a.js" .null "/project/dist"
        emptyFileFS).trace
      = [.resolve "/project/dist" "a.js", .readFile "/project/dist/a.js" true,
         .emitWarning "Source content was empty for a.js in /project/dist."]
    ∧ (fetchSource exampleHost (resolveOptions namedRawOptions) "a.js" .null "/project/dist"
        emptyFileFS).trace.filter Event.isEmitFile = [])
    ∧ (fetchSource exampleHost (resolveOptions namedRawOptions) "a.js" .null "/project/dist"
        exampleFS).trace.filter Event.isEmitFile
      = [.emitFile (.str "src/dist/a.js") (.str "console.log(1)")] :=
  ⟨(fetchSource_emission exampleHost (resolveOptions namedRawOptions) "a.js" .null "/project/dist"
      emptyFileFS (.str "") (by decide) (by decide)).2.1 (by decide),
   ((fetchSource_emission exampleHost (resolveOptions namedRawOptions) "a.js" .null "/project/dist"
      exampleFS (.str "console.log(1)") (by decide) (by decide)).2.2.1 (by decide)).2⟩

/-! ## Cache store -/

theorem String.toList_of_append_eq_empty (a b c : String) (h : a ++ b ++ c = "") :
    b.toList = [] := by
  have h2 := congrArg String.toList h
  have h3 : (a ++ b ++ c).toList = a.toList ++ b.toList ++ c.toList := by simp
  rw [h3] at h2
  have h4 : a.toList ++ b.toList ++ c.toList = [] := h2
  simp only [List.append_eq_nil] at h4
  exact h4.1.2

theorem path.normalize_ne_empty (p : String) : path.normalize p ≠ "" := by
  unfold path.normalize
  by_cases h1 : p.toList = []
  · simp only [h1, if_true]
    decide
  · simp only [h1, if_false]
    split_ifs with h2
    · decide
    · decide
    · decide
    · exact fun h => h2 (String.toList_of_append_eq_empty _ _ _ h)
    · exact fun h => h2 (String.toList_of_append_eq_empty _ _ _ h)
    · exact fun h => h2 (String.toList_of_append_eq_empty _ _ _ h)
    · exact fun h => h2 (String.toList_of_append_eq_empty _ _ _ h)

theorem path.join_ne_empty (args : List String) : path.join args ≠ "" := by
  unfold path.join
  split
  · decide
  · exact path.normalize_ne_empty _

theorem getCachePath_enabled (url : URL) (options : Options)
    (hcache : truthyPath options.cacheDir = true) :
    getCachePath url options
        = some (path.join [options.cacheDir.getD "", url.hostname ++ url.pathname])
      ∧ truthyPath (getCachePath url options) = true := by
  unfold getCachePath
  rw [if_pos hcache]
  exact ⟨rfl, by simp [truthyPath, path.join_ne_empty]⟩

theorem fetchRemote_http (host : Host) (url : URL) (fs : FS) (body : String)
    (hproto : url.protocol = "http:" ∨ url.protocol = "https:")
    (hget : host.httpGet (if url.protocol = "http:" then .http else .https) url = .resolved body) :
    fetchRemote host url fs
      = ⟨.resolved (.str body), fs,
          (if url.protocol = "http:" then
            [.emitWarning ("Insecure HTTP protocol used for source '" ++ url.href ++ "'.")]
           else [])
          ++ [.get (if url.protocol = "http:" then .http else .https) url]⟩ := by
  unfold fetchRemote
  by_cases h : url.protocol = "http:"
  · simp only [h, if_true] at hget ⊢
    simp [task_bind_apply, emit, downloadHttpSource, hget]
  · have h2 : url.protocol = "https:" := by tauto
    rw [if_neg h] at hget
    rw [if_neg h, if_pos h2, if_neg h, if_neg h]
    simp [downloadHttpSource, hget]

/-- A cache miss: existence check, fetch, directory creation, write. -/
theorem acquireContent_cache_miss (host : Host) (options : Options) (source : String)
    (c : Content) (sourceRoot : String) (fs fs1 fs2 : FS) (url : URL) (body : String)
    (hc : c.truthy = false)
    (hproto : url.protocol = "http:" ∨ url.protocol = "https:")
    (hcache : truthyPath options.cacheDir = true)
    (hmiss : fs.access (path.join [options.cacheDir.getD "", url.hostname ++ url.pathname])
      = false)
    (hget : host.httpGet (if url.protocol = "http:" then .http else .https) url = .resolved body)
    (hmk : fs.mkdirp
        (path.dirname (path.join [options.cacheDir.getD "", url.hostname ++ url.pathname]))
      = .resolved fs1)
    (hwr : fs1.write (path.join [options.cacheDir.getD "", url.hostname ++ url.pathname]) body
      = .resolved fs2) :
    acquireContent host options source c sourceRoot (some url) fs
      = ⟨.resolved (.str body), fs2,
          [.access (path.join [options.cacheDir.getD "", url.hostname ++ url.pathname])]
          ++ ((if url.protocol = "http:" then
                [.emitWarning ("Insecure HTTP protocol used for source '" ++ url.href ++ "'.")]
               else [])
              ++ [.get (if url.protocol = "http:" then .http else .https) url])
          ++ [.mkdir (path.dirname
                (path.join [options.cacheDir.getD "", url.hostname ++ url.pathname])),
              .writeFile (path.join [options.cacheDir.getD "", url.hostname ++ url.pathname])
                (.str body)]⟩ := by
  obtain ⟨hpath, htruthy⟩ := getCachePath_enabled url options hcache
  rw [hpath] at htruthy
  unfold acquireContent
  simp only [hc, Bool.not_false, if_true, task_bind_apply, canReadFromCache, htruthy, hpath,
    Option.getD_some, hmiss, Bool.false_eq_true, if_false,
    fetchRemote_http host url fs body hproto hget, mkdir, hmk, writeFile, writeText, hwr,
    task_pure_apply]
  simp

/-- A cache hit: existence check and read, no fetch. -/
theorem acquireContent_cache_hit (host : Host) (options : Options) (source : String)
    (c : Content) (sourceRoot : String) (fs : FS) (url : URL) (text : String)
    (hc : c.truthy = false)
    (hcache : truthyPath options.cacheDir = true)
    (hhit : fs.read (path.join [options.cacheDir.getD "", url.hostname ++ url.pathname])
      = some text) :
    acquireContent host options source c sourceRoot (some url) fs
      = ⟨.resolved (.buffer text), fs,
          [.access (path.join [options.cacheDir.getD "", url.hostname ++ url.pathname]),
           .readFile (path.join [options.cacheDir.getD "", url.hostname ++ url.pathname])
             false]⟩ := by
  obtain ⟨hpath, htruthy⟩ := getCachePath_enabled url options hcache
  rw [hpath] at htruthy
  have hlookup := FS.lookup_of_read fs _ _ hhit
  have haccess : fs.access (path.join [options.cacheDir.getD "", url.hostname ++ url.pathname])
      = true := by
    unfold FS.access
    simp [hlookup]
  unfold acquireContent
  simp only [hc, Bool.not_false, if_true, task_bind_apply, canReadFromCache, htruthy, hpath,
    Option.getD_some, haccess, readFileBuffer, hlookup]
  simp

/-- A file that has been written holds the text written. -/
theorem FS.read_write (fs written : FS) (file text : String)
    (h : fs.write file text = .resolved written) : written.read file = some text := by
  unfold FS.write at h
  split_ifs at h with h1 h2
  split at h
  · have hw : written = ⟨(FS.key file, .file text) :: fs.entries⟩ := by
      injection h with h
      exact h.symm
    have hdir : ¬ (FS.key file = "/" ∨ FS.key file = ".") := by
      intro hk
      apply h2
      right
      unfold FS.lookup
      simp [h1, hk]
    have hwants : FS.wantsDir file = false := by
      cases hv : FS.wantsDir file
      · rfl
      · exact absurd (Or.inl hv) h2
    subst hw
    unfold FS.read FS.lookup
    simp [h1, hdir, List.lookup, hwants]
  · exact Settled.noConfusion h
  · exact Settled.noConfusion h

theorem getCachePath_eq_some (url : URL) (options : Options) (file : String)
    (hfile : getCachePath url options = some file) :
    truthyPath options.cacheDir = true
      ∧ file = path.join [options.cacheDir.getD "", url.hostname ++ url.pathname] := by
  unfold getCachePath at hfile
  split_ifs at hfile with h
  exact ⟨h, (Option.some.inj hfile).symm⟩

/-- C8 (amended): with caching enabled (`getCachePath(u)` is the path `file`), the
inclusion or the emission predicate true, no content in the map, `file` absent, a GET
of the http(s) URL `u` that answers `body`, and a file system in which the parent
directory of `file` can be created (giving `fs1`) and `file` can then be written (giving
`fs2`): the first resolution makes exactly one GET and exactly one `writeFile`, of
`body` at `file`, right after creating its parent directory, ends in `fs2` and leaves
`body` in `file`; the second resolution, run on the resulting file system, makes no GET
and no write and exactly one `readFile`, of `file`; both resolve, under the same
name. -/
theorem cache_miss_then_hit (host : Host) (options : Options) (source : String) (c : Content)
    (sourceRoot : String) (fs fs1 fs2 : FS) (url : URL) (file body : String)
    (hc : c.truthy = false)
    (hurl : host.parseURL source = some url)
    (hproto : url.protocol = "http:" ∨ url.protocol = "https:")
    (hfile : getCachePath url options = some file)
    (hgate : (options.includeContent source || options.emitContent source) = true)
    (hmiss : fs.access file = false)
    (hget : host.httpGet (if url.protocol = "http:" then .http else .https) url = .resolved body)
    (hmk : fs.mkdirp (path.dirname file) = .resolved fs1)
    (hwr : fs1.write file body = .resolved fs2) :
    (∃ r1 r2,
      (fetchSource host options source c sourceRoot fs).result = .resolved r1
      ∧ (fetchSource host options source c sourceRoot
          (fetchSource host options source c sourceRoot fs).fs).result = .resolved r2
      ∧ r1.source = r2.source)
    ∧ (fetchSource host options source c sourceRoot fs).trace.filter Event.isGet
        = [.get (if url.protocol = "http:" then .http else .https) url]
    ∧ (fetchSource host options source c sourceRoot fs).trace.filter Event.isWriteFile
        = [.writeFile file (.str body)]
    ∧ (∃ pre post, (fetchSource host options source c sourceRoot fs).trace
        = pre ++ [.mkdir (path.dirname file), .writeFile file (.str body)] ++ post)
    ∧ (fetchSource host options source c sourceRoot fs).fs = fs2
    ∧ (fetchSource host options source c sourceRoot fs).fs.read file = some body
    ∧ (fetchSource host options source c sourceRoot
        (fetchSource host options source c sourceRoot fs).fs).trace.filter Event.isGet = []
    ∧ (fetchSource host options source c sourceRoot
        (fetchSource host options source c sourceRoot fs).fs).trace.filter Event.isReadFile
        = [.readFile file false]
    ∧ (fetchSource host options source c sourceRoot
        (fetchSource host options source c sourceRoot fs).fs).trace.filter Event.isWriteFile
        = [] := by
  obtain ⟨hcache, rfl⟩ := getCachePath_eq_some url options file hfile
  have hmissAcq := acquireContent_cache_miss host options source c sourceRoot fs fs1 fs2 url body
    hc hproto hcache hmiss hget hmk hwr
  have hfirst := fetchSource_resolved host options source c sourceRoot fs (.str body) hgate
    (by rw [hurl, hmissAcq])
  rw [hurl, hmissAcq] at hfirst
  have hread := FS.read_write fs1 fs2 _ body hwr
  have hhitAcq := acquireContent_cache_hit host options source c sourceRoot fs2 url body
    hc hcache hread
  have hsecond := fetchSource_resolved host options source c sourceRoot fs2
    (.buffer body) hgate (by rw [hurl, hhitAcq])
  rw [hurl, hhitAcq] at hsecond
  rw [hfirst]
  simp only [hsecond]
  refine ⟨⟨_, _, rfl, rfl, rfl⟩, ?_, ?_, ?_, trivial, hread, ?_, ?_, ?_⟩
  · by_cases hp : url.protocol = "http:" <;> cases options.emitContent source <;>
      cases (Content.str body).truthy <;> simp [hp, Event.isGet]
  · by_cases hp : url.protocol = "http:" <;> cases options.emitContent source <;>
      cases (Content.str body).truthy <;> simp [hp, Event.isWriteFile]
  · exact ⟨_, _, rfl⟩
  · cases options.emitContent source <;> simp [Event.isGet, Content.truthy]
  · cases options.emitContent source <;> simp [Event.isReadFile, Content.truthy]
  · cases options.emitContent source <;> simp [Event.isWriteFile, Content.truthy]

/-- C8 at a concrete URL: the CDN source of the two-entry map, default cache
directory. -/
theorem cache_miss_then_hit_witness :
    (fetchSource exampleHost (resolveOptions namedRawOptions) "https://cdn.example/lib/a.js"
        .null "/project/dist" remoteFS).trace.filter Event.isGet
      = [.get .https cdnURL]
    ∧ (fetchSource exampleHost (resolveOptions namedRawOptions) "https://cdn.example/lib/a.js"
        .null "/project/dist" remoteFS).trace.filter Event.isWriteFile
      = [.writeFile ".remote-source-map-loader/cdn.example/lib/a.js" (.str "export default 1")]
    ∧ (fetchSource exampleHost (resolveOptions namedRawOptions) "https://cdn.example/lib/a.js"
        .null "/project/dist" remoteFS).fs = cachedFS
    ∧ (fetchSource exampleHost (resolveOptions namedRawOptions) "https://cdn.example/lib/a.js"
        .null "/project/dist"
        (fetchSource exampleHost (resolveOptions namedRawOptions) "https://cdn.example/lib/a.js"
          .null "/project/dist" remoteFS).fs).trace.filter Event.isGet = []
    ∧ (fetchSource exampleHost (resolveOptions namedRawOptions) "https://cdn.example/lib/a.js"
        .null "/project/dist"
        (fetchSource exampleHost (resolveOptions namedRawOptions) "https://cdn.example/lib/a.js"
          .null "/project/dist" remoteFS).fs).trace.filter Event.isReadFile
      = [.readFile ".remote-source-map-loader/cdn.example/lib/a.js" false] :=
  have h := cache_miss_then_hit exampleHost (resolveOptions namedRawOptions)
    "https://cdn.example/lib/a.js" .null "/project/dist" remoteFS cacheDirFS cachedFS cdnURL
    ".remote-source-map-loader/cdn.example/lib/a.js" "export default 1"
    (by decide) (by decide) (by decide) (by decide) (by decide) (by decide) (by decide)
    (by decide) (by decide)
  ⟨h.2.1, h.2.2.1, h.2.2.2.2.1, h.2.2.2.2.2.2.1, h.2.2.2.2.2.2.2.1⟩

/-- C8 as stated fails in three ways, each with caching on and the cache file absent:
behind the guard (neither inclusion nor emission wanted) resolving the URL makes no GET
and no write; for `https://cdn.example/` the cache path ends in a slash, so the one
write is refused and the entry rejects; and for the CDN source the first resolution
yields the fetched string while the second yields the `Buffer` read from the cache
file. -/
theorem cache_untouched_behind_gate :
    (getCachePath cdnURL (resolveOptions inertRawOptions)
        = some ".remote-source-map-loader/cdn.example/lib/a.js"
      ∧ remoteFS.access ".remote-source-map-loader/cdn.example/lib/a.js" = false
      ∧ fetchSource exampleHost (resolveOptions inertRawOptions) "https://cdn.example/lib/a.js"
          .null "/project/dist" remoteFS
        = ⟨.resolved { source := .str "https://cdn.example/lib/a.js", sourceContent := .null },
            remoteFS, []⟩
      ∧ (fetchSource exampleHost (resolveOptions inertRawOptions) "https://cdn.example/lib/a.js"
          .null "/project/dist" remoteFS).trace.filter Event.isGet
        ≠ [.get .https cdnURL])
    ∧ (getCachePath cdnRootURL (resolveOptions namedRawOptions)
        = some ".remote-source-map-loader/cdn.example/"
      ∧ remoteFS.access ".remote-source-map-loader/cdn.example/" = false
      ∧ (fetchSource exampleHost (resolveOptions namedRawOptions) "https://cdn.example/"
          .null "/project/dist" remoteFS).result
        = .rejected
            "EISDIR: illegal operation on a directory, open .remote-source-map-loader/cdn.example/")
    ∧ ((fetchSource exampleHost (resolveOptions namedRawOptions) "https://cdn.example/lib/a.js"
          .null "/project/dist" remoteFS).result
        = .resolved ⟨.str "src/cdn.example/lib/a.js", .str "export default 1"⟩
      ∧ (fetchSource exampleHost (resolveOptions namedRawOptions) "https://cdn.example/lib/a.js"
          .null "/project/dist"
          (fetchSource exampleHost (resolveOptions namedRawOptions)
            "https://cdn.example/lib/a.js" .null "/project/dist" remoteFS).fs).result
        = .resolved ⟨.str "src/cdn.example/lib/a.js", .buffer "export default 1"⟩
      ∧ Content.str "export default 1" ≠ Content.buffer "export default 1") := by
  decide

/-! ## Unsupported protocols -/

/-- C4, evaluated at `ftp://host/file.js` with no content in the map and an empty file
system: `fetchRemote` emits one warning and yields `null`; with caching disabled the
entry resolves with `null` content; with the default cache directory the pipeline goes
on to create the cache directory and to call `writeFile` with `null`, which rejects the
entry. -/
theorem unsupported_protocol_reaches_cache_write :
    fetchRemote exampleHost ftpURL ⟨[]⟩
      = ⟨.resolved .null, ⟨[]⟩, [.emitWarning "Unsupported protocol 'ftp:'."]⟩
    ∧ (fetchSource exampleHost (resolveOptions uncachedRawOptions) "ftp://host/file.js" .null
        "/project/dist" ⟨[]⟩).result
      = .resolved ⟨.str "src/host/file.js", .null⟩
    ∧ fetchSource exampleHost (resolveOptions defaultRawOptions) "ftp://host/file.js" .null
        "/project/dist" ⟨[]⟩
      = ⟨.rejected "TypeError [ERR_INVALID_ARG_TYPE]: The data argument must be of type string or an instance of Buffer, TypedArray, or DataView.",
          ⟨[(".remote-source-map-loader", .dir), (".remote-source-map-loader/host", .dir)]⟩,
          [.access ".remote-source-map-loader/host/file.js",
           .emitWarning "Unsupported protocol 'ftp:'.",
           .mkdir ".remote-source-map-loader/host",
           .writeFile ".remote-source-map-loader/host/file.js" .null]⟩ := by
  decide

end RemoteSourceMapLoader
